import Mathlib

/-!
Verification of the 2D physics engine (KareemOtoum/2DPhysicsEngine).

Shallow embedding of the engine's core in Lean 4.  The C++ `float`
arithmetic is modelled by exact rationals (`ℚ`); the only transcendental
operations the modelled code performs are `std::sqrt` (in `Vec2::length`
and `Vec2::normalise`) and `std::cos`/`std::sin` (in polygon generation,
inertia and transforms).  Those are threaded through the definitions as
explicit function arguments (`sq`, `cosF`, `sinF`); theorems that depend
on their values carry hypotheses pinning them to the exact mathematical
functions at the points where they are used.  The IEEE value `+inf`
produced by `1.0f / 0.0f` is modelled by `none : Option ℚ` where it can
arise (the rigid-body constructor's `inverseInertia = 1/inertia`), and by
`⊤ : WithTop ℚ` for the `std::numeric_limits<float>::infinity()` initial
penetration in `SATCollision`.
-/

namespace PhysEng

/-- `Vec2` from `include/core/Vector2.hpp`: a pair of coordinates. -/
structure Vec2 where
  x : ℚ
  y : ℚ
deriving DecidableEq, Repr

instance : Add Vec2 := ⟨fun a b => ⟨a.x + b.x, a.y + b.y⟩⟩
instance : Sub Vec2 := ⟨fun a b => ⟨a.x - b.x, a.y - b.y⟩⟩
instance : Neg Vec2 := ⟨fun a => ⟨-a.x, -a.y⟩⟩

/-- `Vec2::operator*(float)` — scalar multiplication on the right. -/
def Vec2.scale (v : Vec2) (s : ℚ) : Vec2 := ⟨v.x * s, v.y * s⟩

instance : HMul Vec2 ℚ Vec2 := ⟨Vec2.scale⟩

instance : Zero Vec2 := ⟨⟨0, 0⟩⟩

theorem Vec2.add_def (a b : Vec2) : a + b = ⟨a.x + b.x, a.y + b.y⟩ := rfl
theorem Vec2.sub_def (a b : Vec2) : a - b = ⟨a.x - b.x, a.y - b.y⟩ := rfl
theorem Vec2.scale_def (v : Vec2) (s : ℚ) : v * s = ⟨v.x * s, v.y * s⟩ := rfl

namespace vecMath

/-- `vecMath::lengthSquared`. -/
def lengthSquared (a : Vec2) : ℚ := a.x * a.x + a.y * a.y

/-- `vecMath::distanceSquared` (the `std::abs` of the components is
squared away, `|d|·|d| = d·d`). -/
def distanceSquared (a b : Vec2) : ℚ :=
  (a.x - b.x) * (a.x - b.x) + (a.y - b.y) * (a.y - b.y)

/-- `vecMath::dot`. -/
def dot (a b : Vec2) : ℚ := a.x * b.x + a.y * b.y

/-- `vecMath::cross` — the scalar z-component. -/
def cross (a b : Vec2) : ℚ := a.x * b.y - a.y * b.x

/-- `vecMath::floatCloselyEqual`: `|a−b| < 1e−3`. -/
def floatCloselyEqual (a b : ℚ) : Bool := |a - b| < 1 / 1000

/-- `vecMath::vecCloselyEqual`: componentwise `floatCloselyEqual`. -/
def vecCloselyEqual (a b : Vec2) : Bool :=
  floatCloselyEqual a.x b.x && floatCloselyEqual a.y b.y

/-- `vecMath::pointSegmentDistance`.  Returns the pair
(squared distance, closest point) that the C++ returns via the return
value and the `contactValue` out-parameter. -/
def pointSegmentDistance (a b p : Vec2) : ℚ × Vec2 :=
  let ab := b - a
  let ap := p - a
  let abLengthSquared := lengthSquared ab
  if abLengthSquared ≤ 0 then (distanceSquared p a, a)
  else
    let t := dot ap ab / abLengthSquared
    let contact := if t ≤ 0 then a else if t ≥ 1 then b else a + ab * t
    (distanceSquared p contact, contact)

end vecMath

/-- `Vec2::length`, with the square root supplied as the oracle `sq`
(the C++ calls `std::sqrt` on `float`). -/
def Vec2.lengthW (sq : ℚ → ℚ) (v : Vec2) : ℚ := sq (v.x * v.x + v.y * v.y)

/-- `Vec2::normalise`: divide by the length when it exceeds `1e−6`,
otherwise return the zero vector. -/
def Vec2.normaliseW (sq : ℚ → ℚ) (v : Vec2) : Vec2 :=
  let len := v.lengthW sq
  if len > 1 / 1000000 then ⟨v.x / len, v.y / len⟩ else ⟨0, 0⟩

/-- Bisection step for an integer square root, with explicit fuel so the
kernel can evaluate it.  Maintains `lo² ≤ n < hi²`. -/
def sqrtBisect (n : ℕ) : ℕ → ℕ → ℕ → ℕ
  | 0, lo, _ => lo
  | f + 1, lo, hi =>
    if hi ≤ lo + 1 then lo
    else
      let mid := (lo + hi) / 2
      if mid * mid ≤ n then sqrtBisect n f mid hi else sqrtBisect n f lo mid

/-- Integer square root (floor), by bisection; 400 fuel covers every
argument below `2^400`. -/
def natSqrtB (n : ℕ) : ℕ := sqrtBisect n 400 0 (n + 1)

/-- A concrete computable square-root oracle standing in for the C++
`std::sqrt` in concrete runs: `√(n/d) = √(n·d)/d` rounded down at
denominator granularity.  It is exact whenever `n·d` is a perfect
square — in particular on the squared lengths of the axis-aligned
geometry used by the witnesses. -/
def ratSqrtF (q : ℚ) : ℚ := (natSqrtB (q.num.toNat * q.den) : ℚ) / (q.den : ℚ)

/-- `RigidBody` from `include/core/RigidBody.hpp` — the fields the
modelled core reads or writes.  `update` is the dirty flag of the
world-space vertex cache. -/
structure RigidBody where
  force : Vec2 := ⟨0, 0⟩
  position : Vec2 := ⟨0, 0⟩
  rotation : ℚ := 0
  linearVelocity : Vec2 := ⟨0, 0⟩
  linearAcceleration : Vec2 := ⟨0, 0⟩
  angularVelocity : ℚ := 0
  inertia : ℚ := 0
  inverseInertia : ℚ := 0
  mass : ℚ := 0
  inverseMass : ℚ := 0
  restitution : ℚ := 0
  staticFriction : ℚ := 0
  dynamicFriction : ℚ := 0
  isStatic : Bool := false
  vertices : List Vec2 := []
  transformedVertices : List Vec2 := []
  update : Bool := false
deriving DecidableEq, Repr

/-- `computeRegularPolygonInertia` from `src/RigidBody.cpp`:
`(m·r²/12)·(3 + cos(2π/n))`, and `0` when `n < 3` or `m ≤ 0`.
`cosAngle` stands for the value `std::cos(2π/n)` computed by the C++. -/
def computeRegularPolygonInertia (n : ℤ) (m r cosAngle : ℚ) : ℚ :=
  if n < 3 ∨ m ≤ 0 then 0
  else m * r * r / 12 * (3 + cosAngle)

/-- `computeInverseMass` from `src/RigidBody.cpp`. -/
def computeInverseMass (mass : ℚ) (isStatic : Bool) : ℚ :=
  if isStatic ∨ mass ≤ 0 then 0 else 1 / mass

/-- The constructor line `inverseInertia = 1/inertia` from
`src/RigidBody.cpp` (line 106).  The division is *not* guarded: in C++
`1.0f / 0.0f` evaluates to IEEE `+inf`, modelled here as `none`.  A
finite quotient is `some (1/inertia)`. -/
def ctorInverseInertia (inertia : ℚ) : Option ℚ :=
  if inertia = 0 then none else some (1 / inertia)

/-- Result of the polygon constructor `RigidBody(n, r, m)` restricted to
the mass/inertia fields it derives (the vertex generation is handled
separately).  `cosAngle` is the value of `std::cos(2π/n)`. -/
structure CtorMassData where
  inertia : ℚ
  inverseInertia : Option ℚ
  inverseMass : ℚ
deriving DecidableEq, Repr

/-- The polygon constructor's mass/inertia computations, in source
order: inertia, then `inverseInertia = 1/inertia` (unguarded), then
`inverseMass = computeInverseMass(m, isStatic)` with `isStatic` still at
its default `false`. -/
def ctorMassData (n : ℤ) (r m cosAngle : ℚ) : CtorMassData :=
  let inertia := computeRegularPolygonInertia n m r cosAngle
  { inertia := inertia
    inverseInertia := ctorInverseInertia inertia
    inverseMass := computeInverseMass m false }

/-- C1.  The claim states that for every body built by the polygon
constructor, the stored `inverseInertia` is `1/inertia` when
`inertia > 0` and `0` when `inertia = 0` (the static / degenerate case).
The second half is false in the code: `RigidBody.cpp` line 106 divides
by `inertia` unconditionally, so a zero inertia (e.g. the constructor
call `RigidBody(4, 1, 0)` with non-positive mass, where
`computeRegularPolygonInertia` returns `0`) stores IEEE `+inf`
(modelled `none`), not `0`.  This theorem evaluates the model at that
failing input and records the behaviour on both sides of the guard. -/
theorem c1_inverse_inertia_unguarded_division (c : ℚ) :
    (ctorMassData 4 1 0 c).inertia = 0 ∧
    (ctorMassData 4 1 0 c).inverseInertia = none ∧
    (ctorMassData 4 1 2 (0 : ℚ)).inverseInertia = some 2 := by
  refine ⟨?_, ?_, ?_⟩
  · norm_num [ctorMassData, computeRegularPolygonInertia]
  · norm_num [ctorMassData, computeRegularPolygonInertia, ctorInverseInertia]
  · with_unfolding_all decide

/-- C9.  Inertia of the regular polygon constructor: for `n ≥ 3` and
`m > 0` the inertia is `(m·r²/12)·(3 + cos(2π/n))`; the concrete body
`(n=4, r=1, m=2)` has inertia `1/2` (since `cos(2π/4) = cos(π/2) = 0`)
and stored inverse inertia `2`; with `m ≤ 0` or `n < 3` the inertia is
`0`.  `c4` is the value of `std::cos(2π/4)`, pinned to the real cosine
by the hypothesis. -/
theorem c9_regular_polygon_inertia (n : ℤ) (m r cosAngle c4 : ℚ)
    (h4 : (c4 : ℝ) = Real.cos (2 * Real.pi / 4)) :
    (3 ≤ n → 0 < m →
      computeRegularPolygonInertia n m r cosAngle = m * r * r / 12 * (3 + cosAngle)) ∧
    (m ≤ 0 ∨ n < 3 → computeRegularPolygonInertia n m r cosAngle = 0) ∧
    (ctorMassData 4 1 2 c4).inertia = 1 / 2 ∧
    (ctorMassData 4 1 2 c4).inverseInertia = some 2 := by
  have hc4 : c4 = 0 := by
    have : (c4 : ℝ) = 0 := by
      rw [h4, show (2 : ℝ) * Real.pi / 4 = Real.pi / 2 by ring, Real.cos_pi_div_two]
    exact_mod_cast this
  subst hc4
  refine ⟨fun h3 hm => ?_, fun h => ?_, ?_, ?_⟩
  · have hcond : ¬(n < 3 ∨ m ≤ 0) := by push_neg; exact ⟨by omega, by linarith⟩
    simp only [computeRegularPolygonInertia, if_neg hcond]
  · have hcond : n < 3 ∨ m ≤ 0 := by tauto
    simp only [computeRegularPolygonInertia, if_pos hcond]
  · with_unfolding_all decide
  · with_unfolding_all decide

/-- Witness for C9 at the concrete input `(n=4, r=1, m=2)` with
`cos(2π/4) = 0`. -/
theorem c9_regular_polygon_inertia_witness :
    computeRegularPolygonInertia 4 2 1 0 = 1 / 2 ∧
    (ctorMassData 4 1 2 0).inverseInertia = some 2 := by
  have h := c9_regular_polygon_inertia 4 2 1 0 0
    (by rw [show (2 : ℝ) * Real.pi / 4 = Real.pi / 2 by ring, Real.cos_pi_div_two]; norm_num)
  exact ⟨(h.1 (by norm_num) (by norm_num)).trans (by norm_num), h.2.2.2⟩

/-! ## AABB (`include/collision/AABB.hpp`) -/

/-- Axis-aligned bounding box. -/
structure AABB where
  min : Vec2
  max : Vec2
deriving DecidableEq, Repr

/-- One iteration of the min/max sweep in `getAABB` (the four `if`
statements of the loop body). -/
def aabbStep (acc : AABB) (v : Vec2) : AABB :=
  let mn := acc.min
  let mx := acc.max
  let mn1 : Vec2 := ⟨if v.x < mn.x then v.x else mn.x, if v.y < mn.y then v.y else mn.y⟩
  let mx1 : Vec2 := ⟨if v.x > mx.x then v.x else mx.x, if v.y > mx.y then v.y else mx.y⟩
  ⟨mn1, mx1⟩

/-- `getAABB` from `AABB.hpp`: seeds min and max with
`transformedVertices[0]` (undefined behaviour on an empty cache, hence
the `Option`), then sweeps the whole list. -/
def getAABB (tv : List Vec2) : Option AABB :=
  match tv with
  | [] => none
  | first :: _ => some (tv.foldl aabbStep ⟨first, first⟩)

/-- Total variant used inside the step pipeline, where the C++ would hit
undefined behaviour on an empty vertex cache; the claims never depend on
the value chosen for that case. -/
def getAABBtotal (tv : List Vec2) : AABB :=
  (getAABB tv).getD ⟨⟨0, 0⟩, ⟨0, 0⟩⟩

/-- `AABBintersection` from `AABB.hpp`: separating-axis tests for boxes,
touching edges count as intersection. -/
def AABBintersection (a b : AABB) : Bool :=
  if a.max.x < b.min.x ∨ b.max.x < a.min.x then false
  else if a.max.y < b.min.y ∨ b.max.y < a.min.y then false
  else true

theorem aabbStep_min_x (acc : AABB) (v : Vec2) :
    (aabbStep acc v).min.x = min acc.min.x v.x := by
  simp only [aabbStep]
  rcases lt_or_le v.x acc.min.x with h | h
  · simp [if_pos h, min_eq_right (le_of_lt h)]
  · simp [if_neg (not_lt.mpr h), min_eq_left h]

theorem aabbStep_min_y (acc : AABB) (v : Vec2) :
    (aabbStep acc v).min.y = min acc.min.y v.y := by
  simp only [aabbStep]
  rcases lt_or_le v.y acc.min.y with h | h
  · simp [if_pos h, min_eq_right (le_of_lt h)]
  · simp [if_neg (not_lt.mpr h), min_eq_left h]

theorem aabbStep_max_x (acc : AABB) (v : Vec2) :
    (aabbStep acc v).max.x = max acc.max.x v.x := by
  simp only [aabbStep]
  rcases lt_or_le acc.max.x v.x with h | h
  · simp [if_pos h, max_eq_right (le_of_lt h)]
  · simp [if_neg (not_lt.mpr h), max_eq_left h]

theorem aabbStep_max_y (acc : AABB) (v : Vec2) :
    (aabbStep acc v).max.y = max acc.max.y v.y := by
  simp only [aabbStep]
  rcases lt_or_le acc.max.y v.y with h | h
  · simp [if_pos h, max_eq_right (le_of_lt h)]
  · simp [if_neg (not_lt.mpr h), max_eq_left h]

theorem foldl_min_le_init (l : List ℚ) (a : ℚ) : l.foldl min a ≤ a := by
  induction l generalizing a with
  | nil => simp
  | cons x xs ih => exact le_trans (ih (min a x)) (min_le_left a x)

theorem foldl_min_le_mem (l : List ℚ) (a x : ℚ) (hx : x ∈ l) : l.foldl min a ≤ x := by
  induction l generalizing a with
  | nil => cases hx
  | cons y ys ih =>
    rcases List.mem_cons.mp hx with rfl | h
    · exact le_trans (foldl_min_le_init ys (min a x)) (min_le_right a x)
    · exact ih (min a y) h

theorem foldl_min_attained (l : List ℚ) (a : ℚ) :
    l.foldl min a = a ∨ ∃ x ∈ l, l.foldl min a = x := by
  induction l generalizing a with
  | nil => exact Or.inl rfl
  | cons y ys ih =>
    rcases ih (min a y) with h | ⟨x, hx, hfx⟩
    · rcases min_cases a y with ⟨hm, _⟩ | ⟨hm, _⟩
      · exact Or.inl (by simpa [hm] using h)
      · exact Or.inr ⟨y, List.mem_cons_self y ys, by simpa [hm] using h⟩
    · exact Or.inr ⟨x, List.mem_cons_of_mem y hx, hfx⟩

theorem init_le_foldl_max (l : List ℚ) (a : ℚ) : a ≤ l.foldl max a := by
  induction l generalizing a with
  | nil => simp
  | cons x xs ih => exact le_trans (le_max_left a x) (ih (max a x))

theorem mem_le_foldl_max (l : List ℚ) (a x : ℚ) (hx : x ∈ l) : x ≤ l.foldl max a := by
  induction l generalizing a with
  | nil => cases hx
  | cons y ys ih =>
    rcases List.mem_cons.mp hx with rfl | h
    · exact le_trans (le_max_right a x) (init_le_foldl_max ys (max a x))
    · exact ih (max a y) h

theorem foldl_max_attained (l : List ℚ) (a : ℚ) :
    l.foldl max a = a ∨ ∃ x ∈ l, l.foldl max a = x := by
  induction l generalizing a with
  | nil => exact Or.inl rfl
  | cons y ys ih =>
    rcases ih (max a y) with h | ⟨x, hx, hfx⟩
    · rcases max_cases a y with ⟨hm, _⟩ | ⟨hm, _⟩
      · exact Or.inl (by simpa [hm] using h)
      · exact Or.inr ⟨y, List.mem_cons_self y ys, by simpa [hm] using h⟩
    · exact Or.inr ⟨x, List.mem_cons_of_mem y hx, hfx⟩

/-- The AABB fold decomposes into four scalar folds. -/
theorem aabbFold_components (l : List Vec2) (acc : AABB) :
    l.foldl aabbStep acc =
      ⟨⟨(l.map Vec2.x).foldl min acc.min.x, (l.map Vec2.y).foldl min acc.min.y⟩,
       ⟨(l.map Vec2.x).foldl max acc.max.x, (l.map Vec2.y).foldl max acc.max.y⟩⟩ := by
  induction l generalizing acc with
  | nil => rfl
  | cons v vs ih =>
    simp only [List.foldl_cons, List.map_cons, ih (aabbStep acc v),
      aabbStep_min_x, aabbStep_min_y, aabbStep_max_x, aabbStep_max_y]


/-- C10.  `getAABB` reads element 0 of the vertex cache unconditionally,
so it is undefined (`none`) exactly on an empty cache; on a non-empty
cache the returned box bounds every vertex componentwise and each of the
four bounds is attained by some vertex. -/
theorem c10_getAABB_bounds (tv : List Vec2) (hne : tv ≠ []) :
    getAABB ([] : List Vec2) = none ∧
    ∃ box, getAABB tv = some box ∧
      (∀ v ∈ tv, box.min.x ≤ v.x ∧ v.x ≤ box.max.x ∧ box.min.y ≤ v.y ∧ v.y ≤ box.max.y) ∧
      (∃ v ∈ tv, v.x = box.min.x) ∧ (∃ v ∈ tv, v.y = box.min.y) ∧
      (∃ v ∈ tv, v.x = box.max.x) ∧ (∃ v ∈ tv, v.y = box.max.y) := by
  refine ⟨rfl, ?_⟩
  obtain ⟨first, rest, rfl⟩ := List.exists_cons_of_ne_nil hne
  refine ⟨(first :: rest).foldl aabbStep ⟨first, first⟩, rfl, ?_, ?_, ?_, ?_, ?_⟩
  · intro v hv
    rw [aabbFold_components]
    exact ⟨foldl_min_le_mem _ _ _ (List.mem_map_of_mem Vec2.x hv),
      mem_le_foldl_max _ _ _ (List.mem_map_of_mem Vec2.x hv),
      foldl_min_le_mem _ _ _ (List.mem_map_of_mem Vec2.y hv),
      mem_le_foldl_max _ _ _ (List.mem_map_of_mem Vec2.y hv)⟩
  · rw [aabbFold_components]
    rcases foldl_min_attained ((first :: rest).map Vec2.x) first.x with h | ⟨x, hx, hfx⟩
    · exact ⟨first, List.mem_cons_self _ _, h.symm⟩
    · obtain ⟨v, hv, rfl⟩ := List.mem_map.mp hx
      exact ⟨v, hv, hfx.symm⟩
  · rw [aabbFold_components]
    rcases foldl_min_attained ((first :: rest).map Vec2.y) first.y with h | ⟨x, hx, hfx⟩
    · exact ⟨first, List.mem_cons_self _ _, h.symm⟩
    · obtain ⟨v, hv, rfl⟩ := List.mem_map.mp hx
      exact ⟨v, hv, hfx.symm⟩
  · rw [aabbFold_components]
    rcases foldl_max_attained ((first :: rest).map Vec2.x) first.x with h | ⟨x, hx, hfx⟩
    · exact ⟨first, List.mem_cons_self _ _, h.symm⟩
    · obtain ⟨v, hv, rfl⟩ := List.mem_map.mp hx
      exact ⟨v, hv, hfx.symm⟩
  · rw [aabbFold_components]
    rcases foldl_max_attained ((first :: rest).map Vec2.y) first.y with h | ⟨x, hx, hfx⟩
    · exact ⟨first, List.mem_cons_self _ _, h.symm⟩
    · obtain ⟨v, hv, rfl⟩ := List.mem_map.mp hx
      exact ⟨v, hv, hfx.symm⟩

/-- Witness for C10 on the concrete cache `[(1,2), (3,0)]`. -/
theorem c10_getAABB_bounds_witness :
    ([⟨1, 2⟩, ⟨3, 0⟩] : List Vec2) ≠ [] ∧
    ∃ box, getAABB [⟨1, 2⟩, ⟨3, 0⟩] = some box ∧
      (∀ v ∈ ([⟨1, 2⟩, ⟨3, 0⟩] : List Vec2),
        box.min.x ≤ v.x ∧ v.x ≤ box.max.x ∧ box.min.y ≤ v.y ∧ v.y ≤ box.max.y) ∧
      (∃ v ∈ ([⟨1, 2⟩, ⟨3, 0⟩] : List Vec2), v.x = box.min.x) ∧
      (∃ v ∈ ([⟨1, 2⟩, ⟨3, 0⟩] : List Vec2), v.y = box.min.y) ∧
      (∃ v ∈ ([⟨1, 2⟩, ⟨3, 0⟩] : List Vec2), v.x = box.max.x) ∧
      (∃ v ∈ ([⟨1, 2⟩, ⟨3, 0⟩] : List Vec2), v.y = box.max.y) :=
  ⟨by with_unfolding_all decide,
    (c10_getAABB_bounds [⟨1, 2⟩, ⟨3, 0⟩] (by with_unfolding_all decide)).2⟩

/-! ## SAT narrow phase (`src/collision.cpp`, and the older copy in
`src/unnamed/part_000`) -/

/-- Struct `contactResult` from `collision.cpp`. -/
structure contactResult where
  contact1 : Vec2 := ⟨0, 0⟩
  contact2 : Vec2 := ⟨0, 0⟩
  contactCount : ℕ := 0
deriving DecidableEq, Repr

/-- Struct `ContactCandidate` from `collision.cpp`. -/
structure ContactCandidate where
  point : Vec2
  distSq : ℚ
deriving DecidableEq, Repr

/-- The edge `v[i] → v[(i+1) mod n]` of a vertex list. -/
def edgeVec (verts : List Vec2) (i : ℕ) : Vec2 :=
  verts.getD ((i + 1) % verts.length) ⟨0, 0⟩ - verts.getD i ⟨0, 0⟩

/-- The `gatherCandidates` lambda of `getContactPoints`: for every vertex
of `P`, the closest point on every edge of `Q`, in iteration order. -/
def gatherCandidates (vertsP vertsQ : List Vec2) : List ContactCandidate :=
  vertsP.foldr
    (fun vP acc =>
      ((List.range vertsQ.length).map (fun i =>
        let q1 := vertsQ.getD i ⟨0, 0⟩
        let q2 := vertsQ.getD ((i + 1) % vertsQ.length) ⟨0, 0⟩
        let r := vecMath.pointSegmentDistance q1 q2 vP
        ContactCandidate.mk r.2 r.1)) ++ acc)
    []

/-- `getContactPoints` from `collision.cpp`: candidates from both
directions, global minimum squared distance, threshold `min + 1e−4`,
first contact = first candidate within threshold, second contact = first
candidate within threshold not closely equal to the first.  (The copy in
`src/unnamed/part_000` lacks the leading emptiness test but behaves
identically: the candidate list is empty iff one vertex list is.) -/
def contactsFromCandidates (candidates : List ContactCandidate) : contactResult :=
  match candidates with
  | [] => {}
  | c0 :: rest =>
    let minDistSq := (c0 :: rest).foldl
      (fun m c => if c.distSq < m then c.distSq else m) c0.distSq
    let threshold := minDistSq + 1 / 10000
    let firstHit := (c0 :: rest).find? (fun c => decide (c.distSq ≤ threshold))
    let contact1 := match firstHit with
      | some c => c.point
      | none => ⟨0, 0⟩
    let count1 : ℕ := match firstHit with
      | some _ => 1
      | none => 0
    let secondHit := (c0 :: rest).find? (fun c =>
      decide (c.distSq ≤ threshold) && !(vecMath.vecCloselyEqual contact1 c.point))
    match secondHit with
    | some c => { contact1 := contact1, contact2 := c.point, contactCount := 2 }
    | none => { contact1 := contact1, contact2 := ⟨0, 0⟩, contactCount := count1 }

def getContactPoints (A B : RigidBody) : contactResult :=
  if A.transformedVertices = [] ∨ B.transformedVertices = [] then {}
  else
    contactsFromCandidates
      (gatherCandidates A.transformedVertices B.transformedVertices ++
        gatherCandidates B.transformedVertices A.transformedVertices)

/-- `projectAxis` from `collision.cpp`: projects every vertex onto the
axis, returning `(max, min)` (the order of the C++ out-parameters).  The
C++ reads `vertices[0]` unconditionally; the empty case (undefined
behaviour there) returns `(0, 0)` and is unreachable under the
preconditions of the claims. -/
def projectAxis (vertices : List Vec2) (normalAxis : Vec2) : ℚ × ℚ :=
  match vertices with
  | [] => (0, 0)
  | v :: rest =>
    let p := vecMath.dot v normalAxis
    rest.foldl
      (fun mm w =>
        let projection := vecMath.dot w normalAxis
        (if projection > mm.1 then projection else mm.1,
         if projection < mm.2 then projection else mm.2))
      (p, p)

/-- The candidate separating axis for edge `i` of `verts`:
`normalise((−edge.y, edge.x))`. -/
def satAxis (sq : ℚ → ℚ) (verts : List Vec2) (i : ℕ) : Vec2 :=
  let edge := edgeVec verts i
  Vec2.normaliseW sq ⟨-edge.y, edge.x⟩

/-- `SATLoop` from the current `src/collision.cpp` (strict `<` gap test,
penetration seeded with `float` infinity, modelled by `⊤`).  The state is
the `(penetration, normal)` pair passed by reference; the `Bool` is the
return value, `false` meaning a separating axis was found (early return,
so the state stops updating there). -/
def SATLoopCur (sq : ℚ → ℚ) (vA vB : List Vec2) :
    List ℕ → WithTop ℚ × Vec2 → Bool × (WithTop ℚ × Vec2)
  | [], st => (true, st)
  | i :: rest, st =>
    let axis := satAxis sq vA i
    let pA := projectAxis vA axis
    let pB := projectAxis vB axis
    if pA.1 < pB.2 ∨ pB.1 < pA.2 then (false, st)
    else
      let axisDepth := min (pA.1 - pB.2) (pB.1 - pA.2)
      SATLoopCur sq vA vB rest
        (if (axisDepth : WithTop ℚ) < st.1 then ((axisDepth : WithTop ℚ), axis) else st)

/-- `SATLoop` from the older copy in `src/unnamed/part_000`: identical
except the gap test is `≤` (touching projections count as separated) and
the caller seeds penetration with `1000.0f`, so the state is plain `ℚ`. -/
def SATLoopLeq (sq : ℚ → ℚ) (vA vB : List Vec2) :
    List ℕ → ℚ × Vec2 → Bool × (ℚ × Vec2)
  | [], st => (true, st)
  | i :: rest, st =>
    let axis := satAxis sq vA i
    let pA := projectAxis vA axis
    let pB := projectAxis vB axis
    if pA.1 ≤ pB.2 ∨ pB.1 ≤ pA.2 then (false, st)
    else
      let axisDepth := min (pA.1 - pB.2) (pB.1 - pA.2)
      SATLoopLeq sq vA vB rest (if axisDepth < st.1 then (axisDepth, axis) else st)

/-- `Manifold` of the current `collision.cpp` (without the two body
references, which the solver model receives explicitly). -/
structure Manifold where
  normal : Vec2
  contact1 : Vec2
  contact2 : Vec2
  contactCount : ℕ
  penetration : WithTop ℚ
  inCollision : Bool
deriving DecidableEq, Repr

/-- `SATCollision` from the current `src/collision.cpp`: run the loop on
the edges of A then of B (the second call runs even when the first
reported a gap, continuing from its state); if no gap anywhere, flip the
normal towards B and extract contact points. -/
def SATCollisionCur (sq : ℚ → ℚ) (A B : RigidBody) : Manifold :=
  let vA := A.transformedVertices
  let vB := B.transformedVertices
  let r1 := SATLoopCur sq vA vB (List.range vA.length) (⊤, ⟨0, 0⟩)
  let r2 := SATLoopCur sq vB vA (List.range vB.length) r1.2
  let inCollision := r1.1 && r2.1
  let nrm :=
    if inCollision then
      if vecMath.dot r2.2.2 (B.position - A.position) < 0 then r2.2.2 * (-1 : ℚ) else r2.2.2
    else r2.2.2
  let cd := if inCollision then getContactPoints A B else {}
  { normal := nrm, contact1 := cd.contact1, contact2 := cd.contact2,
    contactCount := cd.contactCount, penetration := r2.2.1, inCollision := inCollision }

/-- Manifold of the `src/unnamed/part_000` version (plain penetration,
seeded `1000.0f`). -/
structure ManifoldL where
  normal : Vec2
  contact1 : Vec2
  contact2 : Vec2
  contactCount : ℕ
  penetration : ℚ
  inCollision : Bool
deriving DecidableEq, Repr

/-- `SATCollision` from `src/unnamed/part_000`: `≤` gap test, penetration
seeded with `1000.0f`, and the normal orientation fix-up placed *outside*
the `inCollision` branch. -/
def SATCollisionLeq (sq : ℚ → ℚ) (A B : RigidBody) : ManifoldL :=
  let vA := A.transformedVertices
  let vB := B.transformedVertices
  let r1 := SATLoopLeq sq vA vB (List.range vA.length) (1000, ⟨0, 0⟩)
  let r2 := SATLoopLeq sq vB vA (List.range vB.length) r1.2
  let inCollision := r1.1 && r2.1
  let cd := if inCollision then getContactPoints A B else {}
  let nrm :=
    if vecMath.dot r2.2.2 (B.position - A.position) < 0 then r2.2.2 * (-1 : ℚ) else r2.2.2
  { normal := nrm, contact1 := cd.contact1, contact2 := cd.contact2,
    contactCount := cd.contactCount, penetration := r2.2.1, inCollision := inCollision }

/-- The gap-or-touch condition of the SAT gap test on axis `i` of the
loop over the edges of `vA`: the projection intervals of `vA` and `vB`
on that axis at most touch (`maxA ≤ minB ∨ maxB ≤ minA`). -/
def gapAxisLeq (sq : ℚ → ℚ) (vA vB : List Vec2) (i : ℕ) : Prop :=
  let axis := satAxis sq vA i
  let pA := projectAxis vA axis
  let pB := projectAxis vB axis
  pA.1 ≤ pB.2 ∨ pB.1 ≤ pA.2

instance (sq : ℚ → ℚ) (vA vB : List Vec2) (i : ℕ) :
    Decidable (gapAxisLeq sq vA vB i) :=
  inferInstanceAs (Decidable (_ ∨ _))

theorem SATLoopLeq_false_of_gap (sq : ℚ → ℚ) (vA vB : List Vec2)
    (idx : List ℕ) (i : ℕ) (hi : i ∈ idx) (hgap : gapAxisLeq sq vA vB i) :
    ∀ st : ℚ × Vec2, (SATLoopLeq sq vA vB idx st).1 = false := by
  induction idx with
  | nil => cases hi
  | cons j rest ih =>
    intro st
    by_cases hc :
      (projectAxis vA (satAxis sq vA j)).1 ≤ (projectAxis vB (satAxis sq vA j)).2 ∨
      (projectAxis vB (satAxis sq vA j)).1 ≤ (projectAxis vA (satAxis sq vA j)).2
    · simp [SATLoopLeq, hc]
    · rcases List.mem_cons.mp hi with rfl | hmem
      · exact absurd hgap hc
      · simp only [SATLoopLeq, if_neg hc]
        exact ih hmem _

/-- C2, counterexample.  The claim asserts the `≤` gap test (exact touch
reported as separated) for `SATLoop`, citing both copies; the copy in the
current `src/collision.cpp` uses strict `<`, so for two unit squares in
exact touch (`maxA = minB` on the axis of edge 1 of A) that `SATLoop`
returns `true` on every axis and `SATCollision` reports them as in
collision, contradicting the claim. -/
theorem c2_cur_sat_reports_exact_touch_as_collision :
    gapAxisLeq ratSqrtF [⟨0, 0⟩, ⟨1, 0⟩, ⟨1, 1⟩, ⟨0, 1⟩] [⟨1, 0⟩, ⟨2, 0⟩, ⟨2, 1⟩, ⟨1, 1⟩] 1 ∧
    (SATLoopCur ratSqrtF [⟨0, 0⟩, ⟨1, 0⟩, ⟨1, 1⟩, ⟨0, 1⟩] [⟨1, 0⟩, ⟨2, 0⟩, ⟨2, 1⟩, ⟨1, 1⟩]
      (List.range 4) (⊤, ⟨0, 0⟩)).1 = true ∧
    (SATCollisionCur ratSqrtF
      { position := ⟨1/2, 1/2⟩, transformedVertices := [⟨0, 0⟩, ⟨1, 0⟩, ⟨1, 1⟩, ⟨0, 1⟩] }
      { position := ⟨3/2, 1/2⟩, transformedVertices := [⟨1, 0⟩, ⟨2, 0⟩, ⟨2, 1⟩, ⟨1, 1⟩] }
      ).inCollision = true := by
  with_unfolding_all decide

/-- C2, amended.  The claimed behaviour holds for the `SATLoop` of
`src/unnamed/part_000` (gap test `maxA ≤ minB ∨ maxB ≤ minA`): whenever
some axis among the edge normals of A satisfies the gap-or-touch
condition, that loop returns `false`, and the corresponding
`SATCollision` reports no collision; the `SATLoop` of the current
`src/collision.cpp` instead uses a strict test and reports exact touch
as collision (see the counterexample). -/
theorem c2_leq_sat_gap_separates (sq : ℚ → ℚ) (A B : RigidBody)
    (st : ℚ × Vec2) (idx : List ℕ) (i : ℕ) (hi : i ∈ idx)
    (hgap : gapAxisLeq sq A.transformedVertices B.transformedVertices i)
    (hir : i < A.transformedVertices.length) :
    (SATLoopLeq sq A.transformedVertices B.transformedVertices idx st).1 = false ∧
    (SATCollisionLeq sq A B).inCollision = false := by
  refine ⟨SATLoopLeq_false_of_gap sq _ _ idx i hi hgap st, ?_⟩
  have h1 : (SATLoopLeq sq A.transformedVertices B.transformedVertices
      (List.range A.transformedVertices.length) (1000, ⟨0, 0⟩)).1 = false :=
    SATLoopLeq_false_of_gap sq _ _ _ i (List.mem_range.mpr hir) hgap _
  simp only [SATCollisionLeq, h1, Bool.false_and]

/-- Witness for C2 (amended) at the two exactly touching unit squares:
edge 1 of A yields the touching axis. -/
theorem c2_leq_sat_gap_separates_witness :
    (SATLoopLeq ratSqrtF [⟨0, 0⟩, ⟨1, 0⟩, ⟨1, 1⟩, ⟨0, 1⟩] [⟨1, 0⟩, ⟨2, 0⟩, ⟨2, 1⟩, ⟨1, 1⟩]
      (List.range 4) (1000, ⟨0, 0⟩)).1 = false ∧
    (SATCollisionLeq ratSqrtF
      { position := ⟨1/2, 1/2⟩, transformedVertices := [⟨0, 0⟩, ⟨1, 0⟩, ⟨1, 1⟩, ⟨0, 1⟩] }
      { position := ⟨3/2, 1/2⟩, transformedVertices := [⟨1, 0⟩, ⟨2, 0⟩, ⟨2, 1⟩, ⟨1, 1⟩] }
      ).inCollision = false :=
  c2_leq_sat_gap_separates ratSqrtF
    { position := ⟨1/2, 1/2⟩, transformedVertices := [⟨0, 0⟩, ⟨1, 0⟩, ⟨1, 1⟩, ⟨0, 1⟩] }
    { position := ⟨3/2, 1/2⟩, transformedVertices := [⟨1, 0⟩, ⟨2, 0⟩, ⟨2, 1⟩, ⟨1, 1⟩] }
    (1000, ⟨0, 0⟩) (List.range 4) 1 (by with_unfolding_all decide)
    (by with_unfolding_all decide) (by with_unfolding_all decide)

theorem gatherCandidates_ne_nil (vertsP vertsQ : List Vec2)
    (hP : vertsP ≠ []) (hQ : vertsQ ≠ []) : gatherCandidates vertsP vertsQ ≠ [] := by
  obtain ⟨p, ps, rfl⟩ := List.exists_cons_of_ne_nil hP
  have hlen : vertsQ.length ≠ 0 := fun h => hQ (List.length_eq_zero.mp h)
  simp only [gatherCandidates, List.foldr_cons]
  intro hcontra
  rcases List.append_eq_nil.mp hcontra with ⟨hmap, _⟩
  have := List.map_eq_nil_iff.mp hmap
  exact hlen (by simpa using congrArg List.length this)

theorem foldl_distSq_min (l : List ContactCandidate) (a : ℚ) :
    l.foldl (fun m c => if c.distSq < m then c.distSq else m) a =
      (l.map ContactCandidate.distSq).foldl min a := by
  induction l generalizing a with
  | nil => rfl
  | cons c cs ih =>
    simp only [List.foldl_cons, List.map_cons, ih]
    congr 1
    rcases lt_or_le c.distSq a with h | h
    · simp [if_pos h, min_eq_right (le_of_lt h)]
    · simp [if_neg (not_lt.mpr h), min_eq_left h]

theorem contactsFromCandidates_count_bounds (c0 : ContactCandidate)
    (rest : List ContactCandidate) :
    1 ≤ (contactsFromCandidates (c0 :: rest)).contactCount ∧
    (contactsFromCandidates (c0 :: rest)).contactCount ≤ 2 := by
  have hexists : ∃ c ∈ c0 :: rest,
      (fun c : ContactCandidate => decide (c.distSq ≤
        (c0 :: rest).foldl (fun m c => if c.distSq < m then c.distSq else m) c0.distSq
          + 1 / 10000)) c = true := by
    set M := (c0 :: rest).foldl (fun m c => if c.distSq < m then c.distSq else m) c0.distSq
      with hM
    have hth : ∃ c ∈ c0 :: rest, c.distSq ≤ M + 1 / 10000 := by
      rw [hM, foldl_distSq_min]
      rcases foldl_min_attained ((c0 :: rest).map ContactCandidate.distSq) c0.distSq
        with h | ⟨x, hx, hfx⟩
      · exact ⟨c0, List.mem_cons_self _ _, by rw [h]; linarith⟩
      · obtain ⟨c, hc, rfl⟩ := List.mem_map.mp hx
        exact ⟨c, hc, by rw [hfx]; linarith⟩
    obtain ⟨c, hc, hcd⟩ := hth
    exact ⟨c, hc, by simpa using hcd⟩
  have hsome : ((c0 :: rest).find? (fun c => decide (c.distSq ≤
      (c0 :: rest).foldl (fun m c => if c.distSq < m then c.distSq else m) c0.distSq
        + 1 / 10000))).isSome = true :=
    List.find?_isSome.mpr hexists
  obtain ⟨fc, hfc⟩ := Option.isSome_iff_exists.mp hsome
  simp only [contactsFromCandidates, hfc]
  cases hsnd : (c0 :: rest).find? (fun c =>
      decide (c.distSq ≤
        (c0 :: rest).foldl (fun m c => if c.distSq < m then c.distSq else m) c0.distSq
          + 1 / 10000) && !(vecMath.vecCloselyEqual fc.point c.point)) with
  | none => exact ⟨le_refl 1, by norm_num⟩
  | some c => exact ⟨by norm_num, le_refl 2⟩

theorem getContactPoints_count_bounds (A B : RigidBody)
    (hA : A.transformedVertices ≠ []) (hB : B.transformedVertices ≠ []) :
    1 ≤ (getContactPoints A B).contactCount ∧ (getContactPoints A B).contactCount ≤ 2 := by
  have hne : gatherCandidates A.transformedVertices B.transformedVertices ++
      gatherCandidates B.transformedVertices A.transformedVertices ≠ [] := by
    intro h
    exact gatherCandidates_ne_nil _ _ hA hB (List.append_eq_nil.mp h).1
  obtain ⟨c0, rest, hcr⟩ := List.exists_cons_of_ne_nil hne
  have hcond : ¬(A.transformedVertices = [] ∨ B.transformedVertices = []) := by
    push_neg; exact ⟨hA, hB⟩
  simp only [getContactPoints, if_neg hcond, hcr]
  exact contactsFromCandidates_count_bounds c0 rest

/-- C5, counterexample.  The claim asserts
`in_collision ⇔ contact_count > 0` for *every* manifold returned by
`SATCollision`.  For two bodies whose world-space vertex caches are empty
both `SATLoop` calls iterate over no edges and return `true`, so
`in_collision` is `true`, while `getContactPoints` short-circuits to zero
contacts — the equivalence fails. -/
theorem c5_empty_bodies_break_equivalence :
    (SATCollisionCur ratSqrtF {} {}).inCollision = true ∧
    (SATCollisionCur ratSqrtF {} {}).contactCount = 0 ∧
    ¬((SATCollisionCur ratSqrtF {} {}).inCollision = true ↔
      0 < (SATCollisionCur ratSqrtF {} {}).contactCount) := by
  with_unfolding_all decide

/-- C5, amended.  For bodies whose world-space vertex caches are
non-empty, every manifold returned by the current `SATCollision`
satisfies `in_collision ⇔ contact_count > 0`, and the contact count is
at most 2 (hence always in `{0, 1, 2}`). -/
theorem c5_in_collision_iff_contacts (sq : ℚ → ℚ) (A B : RigidBody)
    (hA : A.transformedVertices ≠ []) (hB : B.transformedVertices ≠ []) :
    ((SATCollisionCur sq A B).inCollision = true ↔
      0 < (SATCollisionCur sq A B).contactCount) ∧
    (SATCollisionCur sq A B).contactCount ≤ 2 := by
  have hcnt := getContactPoints_count_bounds A B hA hB
  simp only [SATCollisionCur]
  cases hb : (SATLoopCur sq A.transformedVertices B.transformedVertices
        (List.range A.transformedVertices.length) (⊤, ⟨0, 0⟩)).1 &&
      (SATLoopCur sq B.transformedVertices A.transformedVertices
        (List.range B.transformedVertices.length)
        (SATLoopCur sq A.transformedVertices B.transformedVertices
          (List.range A.transformedVertices.length) (⊤, ⟨0, 0⟩)).2).1 with
  | false =>
    simp [hb]
  | true =>
    simp only [hb, if_true]
    exact ⟨by simp only [true_iff]; exact lt_of_lt_of_le one_pos hcnt.1, hcnt.2⟩

/-- Witness for C5 (amended) on two overlapping unit squares. -/
theorem c5_in_collision_iff_contacts_witness :
    ((SATCollisionCur ratSqrtF
        { position := ⟨1/2, 1/2⟩, transformedVertices := [⟨0, 0⟩, ⟨1, 0⟩, ⟨1, 1⟩, ⟨0, 1⟩] }
        { position := ⟨1, 1/2⟩,
          transformedVertices := [⟨1/2, 0⟩, ⟨3/2, 0⟩, ⟨3/2, 1⟩, ⟨1/2, 1⟩] }).inCollision = true ↔
      0 < (SATCollisionCur ratSqrtF
        { position := ⟨1/2, 1/2⟩, transformedVertices := [⟨0, 0⟩, ⟨1, 0⟩, ⟨1, 1⟩, ⟨0, 1⟩] }
        { position := ⟨1, 1/2⟩,
          transformedVertices := [⟨1/2, 0⟩, ⟨3/2, 0⟩, ⟨3/2, 1⟩, ⟨1/2, 1⟩] }).contactCount) ∧
    (SATCollisionCur ratSqrtF
      { position := ⟨1/2, 1/2⟩, transformedVertices := [⟨0, 0⟩, ⟨1, 0⟩, ⟨1, 1⟩, ⟨0, 1⟩] }
      { position := ⟨1, 1/2⟩,
        transformedVertices := [⟨1/2, 0⟩, ⟨3/2, 0⟩, ⟨3/2, 1⟩, ⟨1/2, 1⟩] }).contactCount ≤ 2 :=
  c5_in_collision_iff_contacts ratSqrtF
    { position := ⟨1/2, 1/2⟩, transformedVertices := [⟨0, 0⟩, ⟨1, 0⟩, ⟨1, 1⟩, ⟨0, 1⟩] }
    { position := ⟨1, 1/2⟩, transformedVertices := [⟨1/2, 0⟩, ⟨3/2, 0⟩, ⟨3/2, 1⟩, ⟨1/2, 1⟩] }
    (by with_unfolding_all decide) (by with_unfolding_all decide)

/-- Edge `i` of `verts` is long enough for `normalise` (the computed
length exceeds the `1e−6` guard) and the square-root oracle is exact on
its perpendicular: the square of the computed length is the squared
length. -/
def goodEdge (sq : ℚ → ℚ) (verts : List Vec2) (i : ℕ) : Prop :=
  1 / 1000000 < Vec2.lengthW sq ⟨-(edgeVec verts i).y, (edgeVec verts i).x⟩ ∧
  Vec2.lengthW sq ⟨-(edgeVec verts i).y, (edgeVec verts i).x⟩ *
      Vec2.lengthW sq ⟨-(edgeVec verts i).y, (edgeVec verts i).x⟩ =
    vecMath.lengthSquared ⟨-(edgeVec verts i).y, (edgeVec verts i).x⟩

instance (sq : ℚ → ℚ) (verts : List Vec2) (i : ℕ) :
    Decidable (goodEdge sq verts i) :=
  inferInstanceAs (Decidable (_ ∧ _))

theorem satAxis_unit (sq : ℚ → ℚ) (verts : List Vec2) (i : ℕ)
    (h : goodEdge sq verts i) :
    vecMath.lengthSquared (satAxis sq verts i) = 1 := by
  obtain ⟨hgt, hsq⟩ := h
  have hlne : Vec2.lengthW sq ⟨-(edgeVec verts i).y, (edgeVec verts i).x⟩ ≠ 0 :=
    ne_of_gt (lt_trans (by norm_num) hgt)
  simp only [satAxis, Vec2.normaliseW, if_pos hgt]
  simp only [vecMath.lengthSquared] at hsq ⊢
  field_simp
  linarith [hsq]

theorem SATLoopCur_pen_ne_top (sq : ℚ → ℚ) (vA vB : List Vec2)
    (idx : List ℕ) (st : WithTop ℚ × Vec2) (h : st.1 ≠ ⊤) :
    (SATLoopCur sq vA vB idx st).2.1 ≠ ⊤ := by
  induction idx generalizing st with
  | nil => exact h
  | cons i rest ih =>
    by_cases hc :
      (projectAxis vA (satAxis sq vA i)).1 < (projectAxis vB (satAxis sq vA i)).2 ∨
      (projectAxis vB (satAxis sq vA i)).1 < (projectAxis vA (satAxis sq vA i)).2
    · simpa [SATLoopCur, hc] using h
    · simp only [SATLoopCur, if_neg hc]
      by_cases hlt : ((min ((projectAxis vA (satAxis sq vA i)).1 -
          (projectAxis vB (satAxis sq vA i)).2)
          ((projectAxis vB (satAxis sq vA i)).1 -
          (projectAxis vA (satAxis sq vA i)).2) : ℚ) : WithTop ℚ) < st.1
      · simp only [if_pos hlt]
        exact ih _ (WithTop.coe_ne_top)
      · simp only [if_neg hlt]
        exact ih _ h

theorem SATLoopCur_unit_invariant (sq : ℚ → ℚ) (vA vB : List Vec2)
    (idx : List ℕ) (st : WithTop ℚ × Vec2)
    (hst : st.1 ≠ ⊤ → vecMath.lengthSquared st.2 = 1)
    (hgood : ∀ i ∈ idx, goodEdge sq vA i) :
    (SATLoopCur sq vA vB idx st).2.1 ≠ ⊤ →
      vecMath.lengthSquared (SATLoopCur sq vA vB idx st).2.2 = 1 := by
  induction idx generalizing st with
  | nil => exact hst
  | cons i rest ih =>
    by_cases hc :
      (projectAxis vA (satAxis sq vA i)).1 < (projectAxis vB (satAxis sq vA i)).2 ∨
      (projectAxis vB (satAxis sq vA i)).1 < (projectAxis vA (satAxis sq vA i)).2
    · simpa [SATLoopCur, hc] using hst
    · simp only [SATLoopCur, if_neg hc]
      by_cases hlt : ((min ((projectAxis vA (satAxis sq vA i)).1 -
          (projectAxis vB (satAxis sq vA i)).2)
          ((projectAxis vB (satAxis sq vA i)).1 -
          (projectAxis vA (satAxis sq vA i)).2) : ℚ) : WithTop ℚ) < st.1
      · simp only [if_pos hlt]
        exact ih _ (fun _ => satAxis_unit sq vA i (hgood i (List.mem_cons_self i rest)))
          (fun j hj => hgood j (List.mem_cons_of_mem i hj))
      · simp only [if_neg hlt]
        exact ih _ hst (fun j hj => hgood j (List.mem_cons_of_mem i hj))

theorem SATLoopCur_true_pen_set (sq : ℚ → ℚ) (vA vB : List Vec2)
    (idx : List ℕ) (st : WithTop ℚ × Vec2) (hidx : idx ≠ [])
    (htrue : (SATLoopCur sq vA vB idx st).1 = true) (hst : st.1 = ⊤) :
    (SATLoopCur sq vA vB idx st).2.1 ≠ ⊤ := by
  match idx with
  | [] => exact absurd rfl hidx
  | i :: rest =>
    by_cases hc :
      (projectAxis vA (satAxis sq vA i)).1 < (projectAxis vB (satAxis sq vA i)).2 ∨
      (projectAxis vB (satAxis sq vA i)).1 < (projectAxis vA (satAxis sq vA i)).2
    · rw [show SATLoopCur sq vA vB (i :: rest) st = (false, st) from by
        simp [SATLoopCur, hc]] at htrue
      cases htrue
    · simp only [SATLoopCur, if_neg hc]
      have hlt : ((min ((projectAxis vA (satAxis sq vA i)).1 -
          (projectAxis vB (satAxis sq vA i)).2)
          ((projectAxis vB (satAxis sq vA i)).1 -
          (projectAxis vA (satAxis sq vA i)).2) : ℚ) : WithTop ℚ) < st.1 := by
        rw [hst]; exact WithTop.coe_lt_top _
      simp only [if_pos hlt]
      exact SATLoopCur_pen_ne_top sq vA vB rest _ WithTop.coe_ne_top

theorem lengthSquared_negOne_scale (v : Vec2) :
    vecMath.lengthSquared (v * (-1 : ℚ)) = vecMath.lengthSquared v := by
  show vecMath.lengthSquared ⟨v.x * (-1), v.y * (-1)⟩ = _
  simp only [vecMath.lengthSquared]
  ring

theorem dot_negOne_scale (v w : Vec2) :
    vecMath.dot (v * (-1 : ℚ)) w = -vecMath.dot v w := by
  show vecMath.dot ⟨v.x * (-1), v.y * (-1)⟩ w = _
  simp only [vecMath.dot]
  ring

set_option maxRecDepth 4000 in
/-- C6, counterexample.  The claim requires only "no zero-length edges".
The triangle `(0,0), (1e−7, 0), (0,1)` is convex (all consecutive edge
crosses positive), has three vertices and no zero-length edge, yet its
first edge is shorter than the `1e−6` guard in `normalise`, so the
candidate axis collapses to `(0,0)`, that axis wins the minimum
penetration with depth `0`, and `SATCollision` against an overlapping
unit square reports a collision whose normal is the zero vector — not
unit length. -/
theorem c6_short_edge_gives_zero_normal :
    (∀ i ∈ List.range 3,
      vecMath.lengthSquared (edgeVec [⟨0, 0⟩, ⟨1/10000000, 0⟩, ⟨0, 1⟩] i) ≠ 0) ∧
    (∀ i ∈ List.range 3,
      0 < vecMath.cross (edgeVec [⟨0, 0⟩, ⟨1/10000000, 0⟩, ⟨0, 1⟩] i)
        (edgeVec [⟨0, 0⟩, ⟨1/10000000, 0⟩, ⟨0, 1⟩] ((i + 1) % 3))) ∧
    (SATCollisionCur ratSqrtF
      { position := ⟨0, 1/3⟩, transformedVertices := [⟨0, 0⟩, ⟨1/10000000, 0⟩, ⟨0, 1⟩] }
      { position := ⟨1/2, 1/2⟩,
        transformedVertices := [⟨0, 0⟩, ⟨1, 0⟩, ⟨1, 1⟩, ⟨0, 1⟩] }).inCollision = true ∧
    vecMath.lengthSquared (SATCollisionCur ratSqrtF
      { position := ⟨0, 1/3⟩, transformedVertices := [⟨0, 0⟩, ⟨1/10000000, 0⟩, ⟨0, 1⟩] }
      { position := ⟨1/2, 1/2⟩,
        transformedVertices := [⟨0, 0⟩, ⟨1, 0⟩, ⟨1, 1⟩, ⟨0, 1⟩] }).normal ≠ 1 := by
  with_unfolding_all decide

/-- C6, amended.  For a colliding manifold of the current `SATCollision`
whose two bodies each have at least three cached vertices and whose
every edge exceeds the `1e−6` normalisation guard (with the square root
computed exactly there), the manifold normal is unit length and
satisfies `normal · (B.position − A.position) ≥ 0`. -/
theorem c6_normal_unit_and_towards_b (sq : ℚ → ℚ) (A B : RigidBody)
    (hA3 : 3 ≤ A.transformedVertices.length)
    (hgA : ∀ i ∈ List.range A.transformedVertices.length,
      goodEdge sq A.transformedVertices i)
    (hgB : ∀ i ∈ List.range B.transformedVertices.length,
      goodEdge sq B.transformedVertices i)
    (hcol : (SATCollisionCur sq A B).inCollision = true) :
    vecMath.lengthSquared (SATCollisionCur sq A B).normal = 1 ∧
    0 ≤ vecMath.dot (SATCollisionCur sq A B).normal (B.position - A.position) := by
  have hb : (SATCollisionCur sq A B).inCollision =
      ((SATLoopCur sq A.transformedVertices B.transformedVertices
          (List.range A.transformedVertices.length) (⊤, ⟨0, 0⟩)).1 &&
        (SATLoopCur sq B.transformedVertices A.transformedVertices
          (List.range B.transformedVertices.length)
          (SATLoopCur sq A.transformedVertices B.transformedVertices
            (List.range A.transformedVertices.length) (⊤, ⟨0, 0⟩)).2).1) := rfl
  rw [hb] at hcol
  obtain ⟨h1, h2⟩ := Bool.and_eq_true_iff.mp hcol
  have hrange : List.range A.transformedVertices.length ≠ [] := by
    intro h
    have := List.range_eq_nil.mp h
    omega
  have hpen1 : (SATLoopCur sq A.transformedVertices B.transformedVertices
      (List.range A.transformedVertices.length) (⊤, ⟨0, 0⟩)).2.1 ≠ ⊤ :=
    SATLoopCur_true_pen_set sq _ _ _ _ hrange h1 rfl
  have hunit1 : vecMath.lengthSquared (SATLoopCur sq A.transformedVertices
      B.transformedVertices (List.range A.transformedVertices.length) (⊤, ⟨0, 0⟩)).2.2 = 1 :=
    SATLoopCur_unit_invariant sq _ _ _ _ (fun h => absurd rfl h) hgA hpen1
  have hpen2 : (SATLoopCur sq B.transformedVertices A.transformedVertices
      (List.range B.transformedVertices.length)
      (SATLoopCur sq A.transformedVertices B.transformedVertices
        (List.range A.transformedVertices.length) (⊤, ⟨0, 0⟩)).2).2.1 ≠ ⊤ :=
    SATLoopCur_pen_ne_top sq _ _ _ _ hpen1
  have hunit2 : vecMath.lengthSquared (SATLoopCur sq B.transformedVertices
      A.transformedVertices (List.range B.transformedVertices.length)
      (SATLoopCur sq A.transformedVertices B.transformedVertices
        (List.range A.transformedVertices.length) (⊤, ⟨0, 0⟩)).2).2.2 = 1 :=
    SATLoopCur_unit_invariant sq _ _ _ _ (fun _ => hunit1) hgB hpen2
  simp only [SATCollisionCur, h1, h2, Bool.true_and, if_true]
  by_cases hd : vecMath.dot (SATLoopCur sq B.transformedVertices A.transformedVertices
      (List.range B.transformedVertices.length)
      (SATLoopCur sq A.transformedVertices B.transformedVertices
        (List.range A.transformedVertices.length) (⊤, ⟨0, 0⟩)).2).2.2
      (B.position - A.position) < 0
  · rw [if_pos hd]
    refine ⟨by rw [lengthSquared_negOne_scale]; exact hunit2, ?_⟩
    rw [dot_negOne_scale]
    linarith
  · rw [if_neg hd]
    exact ⟨hunit2, not_lt.mp hd⟩

/-- Witness for C6 (amended) on two overlapping unit squares, whose
edges all have exactly computed length 1. -/
theorem c6_normal_unit_and_towards_b_witness :
    vecMath.lengthSquared (SATCollisionCur ratSqrtF
      { position := ⟨1/2, 1/2⟩, transformedVertices := [⟨0, 0⟩, ⟨1, 0⟩, ⟨1, 1⟩, ⟨0, 1⟩] }
      { position := ⟨1, 1/2⟩,
        transformedVertices := [⟨1/2, 0⟩, ⟨3/2, 0⟩, ⟨3/2, 1⟩, ⟨1/2, 1⟩] }).normal = 1 ∧
    0 ≤ vecMath.dot (SATCollisionCur ratSqrtF
      { position := ⟨1/2, 1/2⟩, transformedVertices := [⟨0, 0⟩, ⟨1, 0⟩, ⟨1, 1⟩, ⟨0, 1⟩] }
      { position := ⟨1, 1/2⟩,
        transformedVertices := [⟨1/2, 0⟩, ⟨3/2, 0⟩, ⟨3/2, 1⟩, ⟨1/2, 1⟩] }).normal
      ((⟨1, 1/2⟩ : Vec2) - (⟨1/2, 1/2⟩ : Vec2)) :=
  c6_normal_unit_and_towards_b ratSqrtF
    { position := ⟨1/2, 1/2⟩, transformedVertices := [⟨0, 0⟩, ⟨1, 0⟩, ⟨1, 1⟩, ⟨0, 1⟩] }
    { position := ⟨1, 1/2⟩, transformedVertices := [⟨1/2, 0⟩, ⟨3/2, 0⟩, ⟨3/2, 1⟩, ⟨1/2, 1⟩] }
    (by with_unfolding_all decide) (by with_unfolding_all decide)
    (by with_unfolding_all decide) (by with_unfolding_all decide)

/-! ## Impulse solver (`resolveCollision` with friction from
`src/src/main.cpp`, the older frictionless copy from `src/src/world.cpp`)
-/

theorem Vec2.ext2 (a b : Vec2) (hx : a.x = b.x) (hy : a.y = b.y) : a = b := by
  cases a; cases b
  simp only at hx hy
  rw [hx, hy]

theorem Vec2.add_scale (a b : Vec2) (s : ℚ) : (a + b) * s = a * s + b * s := by
  apply Vec2.ext2 <;> simp [Vec2.add_def, Vec2.scale_def] <;> ring

theorem Vec2.scale_zero (v : Vec2) : v * (0 : ℚ) = (⟨0, 0⟩ : Vec2) := by
  apply Vec2.ext2 <;> simp [Vec2.scale_def]

theorem Vec2.sub_zero_vec (v : Vec2) : v - (⟨0, 0⟩ : Vec2) = v := by
  apply Vec2.ext2 <;> simp [Vec2.sub_def]

theorem Vec2.add_zero_vec (v : Vec2) : v + (⟨0, 0⟩ : Vec2) = v := by
  apply Vec2.ext2 <;> simp [Vec2.add_def]

/-- Struct `impulseManifold`. -/
structure ImpulseManifold where
  impulse : Vec2
  rA : Vec2
  rB : Vec2
deriving DecidableEq, Repr

/-- The `contacts` vector built at the top of `resolveCollision`. -/
def manifoldContacts (contactCount : ℕ) (contact1 contact2 : Vec2) : List Vec2 :=
  (if 1 ≤ contactCount then [contact1] else []) ++
    (if 2 ≤ contactCount then [contact2] else [])

/-- The body of the per-contact loop of the friction-aware
`resolveCollision` in `src/src/main.cpp`: the impulse manifolds this
contact contributes (none when the bodies already separate at it, one
normal impulse, plus one friction impulse unless the tangential speed is
closely equal to zero).  `ℚ` division by a vanishing denominator yields
`0` here where C++ would produce a non-finite float; the claims proved
about the solver do not depend on the quotient. -/
def impulsesForContact (sq : ℚ → ℚ) (A B : RigidBody) (normal : Vec2)
    (contactCount : ℕ) (staticFriction dynamicFriction : ℚ) (contact : Vec2) :
    List ImpulseManifold :=
  let radiusA := contact - A.position
  let radiusB := contact - B.position
  let rA : Vec2 := ⟨-radiusA.y, radiusA.x⟩
  let rB : Vec2 := ⟨-radiusB.y, radiusB.x⟩
  let AtangentialVelocity := rA * A.angularVelocity
  let BtangentialVelocity := rB * B.angularVelocity
  let relativeVel :=
    (B.linearVelocity + BtangentialVelocity) - (A.linearVelocity + AtangentialVelocity)
  let tangent0 := relativeVel - normal * vecMath.dot relativeVel normal
  let velAlongNormal := vecMath.dot relativeVel normal
  if 0 < velAlongNormal then []
  else
    let tangentSmall := vecMath.floatCloselyEqual (tangent0.lengthW sq) 0
    let tangent := if tangentSmall then tangent0 else Vec2.normaliseW sq tangent0
    let rADot := vecMath.dot rA normal
    let rBDot := vecMath.dot rB normal
    let minRestitiution := min A.restitution B.restitution
    let denominator := A.inverseMass + B.inverseMass +
      rADot * rADot * A.inverseInertia + rBDot * rBDot * B.inverseInertia
    let j := -(1 + minRestitiution) * velAlongNormal / denominator / (contactCount : ℚ)
    let impulse := normal * j
    if tangentSmall then [ImpulseManifold.mk impulse radiusA radiusB]
    else
      let rADotTangential := vecMath.dot rA tangent
      let rBDotTangential := vecMath.dot rB tangent
      let denominatorTangential := A.inverseMass + B.inverseMass +
        rADotTangential * rADotTangential * A.inverseInertia +
        rBDotTangential * rBDotTangential * B.inverseInertia
      let jTangent := -vecMath.dot relativeVel tangent / denominatorTangential /
        (contactCount : ℚ)
      let frictionImpulse :=
        if |jTangent| ≤ j * staticFriction then tangent * jTangent
        else tangent * (-1 : ℚ) * j * dynamicFriction
      [ImpulseManifold.mk impulse radiusA radiusB,
       ImpulseManifold.mk frictionImpulse radiusA radiusB]

/-- The per-contact loop of the frictionless `resolveCollision` in
`src/src/world.cpp`. -/
def impulsesForContactOld (A B : RigidBody) (normal : Vec2)
    (contactCount : ℕ) (contact : Vec2) : List ImpulseManifold :=
  let radiusA := contact - A.position
  let radiusB := contact - B.position
  let rA : Vec2 := ⟨-radiusA.y, radiusA.x⟩
  let rB : Vec2 := ⟨-radiusB.y, radiusB.x⟩
  let AtangentialVelocity := rA * A.angularVelocity
  let BtangentialVelocity := rB * B.angularVelocity
  let relativeVel :=
    (B.linearVelocity + BtangentialVelocity) - (A.linearVelocity + AtangentialVelocity)
  let velAlongNormal := vecMath.dot relativeVel normal
  if 0 < velAlongNormal then []
  else
    let rADot := vecMath.dot rA normal
    let rBDot := vecMath.dot rB normal
    let minRestitiution := min A.restitution B.restitution
    let denominator := A.inverseMass + B.inverseMass +
      rADot * rADot * A.inverseInertia + rBDot * rBDot * B.inverseInertia
    let j := -(1 + minRestitiution) * vecMath.dot relativeVel normal / denominator /
      (contactCount : ℚ)
    [ImpulseManifold.mk (normal * j) radiusA radiusB]

/-- The apply loop shared by both versions: each recorded impulse is
subtracted from the linear velocity of A scaled by its inverse mass,
added to that of B, and the cross terms update the angular velocities. -/
def applyImpulses (impulses : List ImpulseManifold) (A B : RigidBody) :
    RigidBody × RigidBody :=
  impulses.foldl
    (fun ab im =>
      ({ ab.1 with
          linearVelocity := ab.1.linearVelocity - Vec2.scale im.impulse ab.1.inverseMass,
          angularVelocity := ab.1.angularVelocity +
            -vecMath.cross im.rA im.impulse * ab.1.inverseInertia },
       { ab.2 with
          linearVelocity := ab.2.linearVelocity + Vec2.scale im.impulse ab.2.inverseMass,
          angularVelocity := ab.2.angularVelocity +
            vecMath.cross im.rB im.impulse * ab.2.inverseInertia }))
    (A, B)

/-- All impulse manifolds collected by the friction-aware
`resolveCollision` before the apply loop. -/
def collectImpulses (sq : ℚ → ℚ) (A B : RigidBody) (m : Manifold) :
    List ImpulseManifold :=
  let staticFriction := min A.staticFriction B.staticFriction
  let dynamicFriction := min A.dynamicFriction B.dynamicFriction
  (manifoldContacts m.contactCount m.contact1 m.contact2).foldr
    (fun c acc =>
      impulsesForContact sq A B m.normal m.contactCount staticFriction dynamicFriction c
        ++ acc)
    []

/-- `resolveCollision` from `src/src/main.cpp` (friction-aware, two-pass:
collect all impulses, then apply them). -/
def resolveCollision (sq : ℚ → ℚ) (A B : RigidBody) (m : Manifold) :
    RigidBody × RigidBody :=
  applyImpulses (collectImpulses sq A B m) A B

/-- All impulse manifolds collected by the frictionless
`resolveCollision` of `src/src/world.cpp`. -/
def collectImpulsesOld (A B : RigidBody) (m : ManifoldL) : List ImpulseManifold :=
  (manifoldContacts m.contactCount m.contact1 m.contact2).foldr
    (fun c acc => impulsesForContactOld A B m.normal m.contactCount c ++ acc) []

/-- `resolveCollision` from `src/src/world.cpp` (no friction). -/
def resolveCollisionOld (A B : RigidBody) (m : ManifoldL) : RigidBody × RigidBody :=
  applyImpulses (collectImpulsesOld A B m) A B

/-- Sum of the recorded impulse vectors. -/
def sumImpulses (impulses : List ImpulseManifold) : Vec2 :=
  impulses.foldr (fun im acc => im.impulse + acc) ⟨0, 0⟩

/-- Sum of the angular cross terms on the A side. -/
def sumCrossA (impulses : List ImpulseManifold) : ℚ :=
  impulses.foldr (fun im acc => vecMath.cross im.rA im.impulse + acc) 0

/-- Sum of the angular cross terms on the B side. -/
def sumCrossB (impulses : List ImpulseManifold) : ℚ :=
  impulses.foldr (fun im acc => vecMath.cross im.rB im.impulse + acc) 0

theorem Vec2.zero_scale (s : ℚ) : Vec2.scale ⟨0, 0⟩ s = (⟨0, 0⟩ : Vec2) := by
  apply Vec2.ext2 <;> simp [Vec2.scale]

theorem applyImpulses_fst_linearVelocity (impulses : List ImpulseManifold)
    (A B : RigidBody) :
    (applyImpulses impulses A B).1.linearVelocity =
      A.linearVelocity - Vec2.scale (sumImpulses impulses) A.inverseMass := by
  induction impulses generalizing A B with
  | nil =>
    simp only [applyImpulses, List.foldl_nil, sumImpulses, List.foldr_nil,
      Vec2.zero_scale, Vec2.sub_zero_vec]
  | cons im rest ih =>
    show (applyImpulses rest _ _).1.linearVelocity = _
    rw [ih]
    apply Vec2.ext2 <;>
      simp [Vec2.sub_def, Vec2.add_def, Vec2.scale, sumImpulses] <;> ring

theorem applyImpulses_snd_linearVelocity (impulses : List ImpulseManifold)
    (A B : RigidBody) :
    (applyImpulses impulses A B).2.linearVelocity =
      B.linearVelocity + Vec2.scale (sumImpulses impulses) B.inverseMass := by
  induction impulses generalizing A B with
  | nil =>
    simp only [applyImpulses, List.foldl_nil, sumImpulses, List.foldr_nil,
      Vec2.zero_scale, Vec2.add_zero_vec]
  | cons im rest ih =>
    show (applyImpulses rest _ _).2.linearVelocity = _
    rw [ih]
    apply Vec2.ext2 <;>
      simp [Vec2.sub_def, Vec2.add_def, Vec2.scale, sumImpulses] <;> ring

theorem applyImpulses_fst_angularVelocity (impulses : List ImpulseManifold)
    (A B : RigidBody) :
    (applyImpulses impulses A B).1.angularVelocity =
      A.angularVelocity - sumCrossA impulses * A.inverseInertia := by
  induction impulses generalizing A B with
  | nil => simp [applyImpulses, sumCrossA]
  | cons im rest ih =>
    show (applyImpulses rest _ _).1.angularVelocity = _
    rw [ih]
    simp only [sumCrossA, List.foldr_cons]
    ring

theorem applyImpulses_snd_angularVelocity (impulses : List ImpulseManifold)
    (A B : RigidBody) :
    (applyImpulses impulses A B).2.angularVelocity =
      B.angularVelocity + sumCrossB impulses * B.inverseInertia := by
  induction impulses generalizing A B with
  | nil => simp [applyImpulses, sumCrossB]
  | cons im rest ih =>
    show (applyImpulses rest _ _).2.angularVelocity = _
    rw [ih]
    simp only [sumCrossB, List.foldr_cons]
    ring

/-- The apply loop touches nothing but the two velocity fields. -/
theorem applyImpulses_preserved (impulses : List ImpulseManifold) (A B : RigidBody) :
    (applyImpulses impulses A B).1.position = A.position ∧
    (applyImpulses impulses A B).1.rotation = A.rotation ∧
    (applyImpulses impulses A B).1.isStatic = A.isStatic ∧
    (applyImpulses impulses A B).1.inverseMass = A.inverseMass ∧
    (applyImpulses impulses A B).1.inverseInertia = A.inverseInertia ∧
    (applyImpulses impulses A B).1.update = A.update ∧
    (applyImpulses impulses A B).1.transformedVertices = A.transformedVertices ∧
    (applyImpulses impulses A B).1.vertices = A.vertices ∧
    (applyImpulses impulses A B).1.mass = A.mass ∧
    (applyImpulses impulses A B).2.position = B.position ∧
    (applyImpulses impulses A B).2.rotation = B.rotation ∧
    (applyImpulses impulses A B).2.isStatic = B.isStatic ∧
    (applyImpulses impulses A B).2.inverseMass = B.inverseMass ∧
    (applyImpulses impulses A B).2.inverseInertia = B.inverseInertia ∧
    (applyImpulses impulses A B).2.update = B.update ∧
    (applyImpulses impulses A B).2.transformedVertices = B.transformedVertices ∧
    (applyImpulses impulses A B).2.vertices = B.vertices ∧
    (applyImpulses impulses A B).2.mass = B.mass := by
  induction impulses generalizing A B with
  | nil => exact ⟨rfl, rfl, rfl, rfl, rfl, rfl, rfl, rfl, rfl,
      rfl, rfl, rfl, rfl, rfl, rfl, rfl, rfl, rfl⟩
  | cons im rest ih => exact ih _ _

/-- Total linear momentum `m_A·v_A + m_B·v_B` of a pair. -/
def totalLinearMomentum (A B : RigidBody) : Vec2 :=
  Vec2.scale A.linearVelocity A.mass + Vec2.scale B.linearVelocity B.mass

theorem applyImpulses_momentum (impulses : List ImpulseManifold) (A B : RigidBody)
    (hmA : 0 < A.mass) (hA : A.inverseMass = 1 / A.mass)
    (hmB : 0 < B.mass) (hB : B.inverseMass = 1 / B.mass) :
    totalLinearMomentum (applyImpulses impulses A B).1 (applyImpulses impulses A B).2 =
      totalLinearMomentum A B := by
  have hp := applyImpulses_preserved impulses A B
  have hmA1 : (applyImpulses impulses A B).1.mass = A.mass := by tauto
  have hmB1 : (applyImpulses impulses A B).2.mass = B.mass := by tauto
  simp only [totalLinearMomentum, applyImpulses_fst_linearVelocity,
    applyImpulses_snd_linearVelocity, hmA1, hmB1, hA, hB]
  apply Vec2.ext2 <;>
    · simp only [Vec2.add_def, Vec2.sub_def, Vec2.scale]
      field_simp

/-- C4.  For a manifold over two dynamic bodies whose stored inverse
masses are exactly the reciprocals of their positive masses, both
`resolveCollision` versions (the friction-aware one in `src/src/main.cpp`
and the frictionless one in `src/src/world.cpp`) leave the total linear
momentum `m_A·v_A + m_B·v_B` unchanged: the impulse list is applied with
opposite signs scaled by the two inverse masses, and neither version
touches positions (positional correction lives outside these
functions). -/
theorem c4_resolve_conserves_momentum (sq : ℚ → ℚ) (A B : RigidBody)
    (m : Manifold) (mL : ManifoldL)
    (hmA : 0 < A.mass) (hA : A.inverseMass = 1 / A.mass)
    (hmB : 0 < B.mass) (hB : B.inverseMass = 1 / B.mass) :
    totalLinearMomentum (resolveCollision sq A B m).1 (resolveCollision sq A B m).2 =
      totalLinearMomentum A B ∧
    totalLinearMomentum (resolveCollisionOld A B mL).1 (resolveCollisionOld A B mL).2 =
      totalLinearMomentum A B :=
  ⟨applyImpulses_momentum _ A B hmA hA hmB hB,
   applyImpulses_momentum _ A B hmA hA hmB hB⟩

/-- Witness for C4: two mass-2 bodies approaching head-on, one contact at
the origin. -/
theorem c4_resolve_conserves_momentum_witness :
    totalLinearMomentum
      (resolveCollision ratSqrtF
        { position := ⟨-1, 0⟩, linearVelocity := ⟨10, 0⟩, mass := 2, inverseMass := 1/2,
          restitution := 1 }
        { position := ⟨1, 0⟩, linearVelocity := ⟨-10, 0⟩, mass := 2, inverseMass := 1/2,
          restitution := 1 }
        { normal := ⟨1, 0⟩, contact1 := ⟨0, 0⟩, contact2 := ⟨0, 0⟩, contactCount := 1,
          penetration := (0 : ℚ), inCollision := true }).1
      (resolveCollision ratSqrtF
        { position := ⟨-1, 0⟩, linearVelocity := ⟨10, 0⟩, mass := 2, inverseMass := 1/2,
          restitution := 1 }
        { position := ⟨1, 0⟩, linearVelocity := ⟨-10, 0⟩, mass := 2, inverseMass := 1/2,
          restitution := 1 }
        { normal := ⟨1, 0⟩, contact1 := ⟨0, 0⟩, contact2 := ⟨0, 0⟩, contactCount := 1,
          penetration := (0 : ℚ), inCollision := true }).2 =
      totalLinearMomentum
        { position := ⟨-1, 0⟩, linearVelocity := ⟨10, 0⟩, mass := 2, inverseMass := 1/2,
          restitution := 1 }
        { position := ⟨1, 0⟩, linearVelocity := ⟨-10, 0⟩, mass := 2, inverseMass := 1/2,
          restitution := 1 } ∧
    totalLinearMomentum
      (resolveCollisionOld
        { position := ⟨-1, 0⟩, linearVelocity := ⟨10, 0⟩, mass := 2, inverseMass := 1/2,
          restitution := 1 }
        { position := ⟨1, 0⟩, linearVelocity := ⟨-10, 0⟩, mass := 2, inverseMass := 1/2,
          restitution := 1 }
        { normal := ⟨1, 0⟩, contact1 := ⟨0, 0⟩, contact2 := ⟨0, 0⟩, contactCount := 1,
          penetration := 0, inCollision := true }).1
      (resolveCollisionOld
        { position := ⟨-1, 0⟩, linearVelocity := ⟨10, 0⟩, mass := 2, inverseMass := 1/2,
          restitution := 1 }
        { position := ⟨1, 0⟩, linearVelocity := ⟨-10, 0⟩, mass := 2, inverseMass := 1/2,
          restitution := 1 }
        { normal := ⟨1, 0⟩, contact1 := ⟨0, 0⟩, contact2 := ⟨0, 0⟩, contactCount := 1,
          penetration := 0, inCollision := true }).2 =
      totalLinearMomentum
        { position := ⟨-1, 0⟩, linearVelocity := ⟨10, 0⟩, mass := 2, inverseMass := 1/2,
          restitution := 1 }
        { position := ⟨1, 0⟩, linearVelocity := ⟨-10, 0⟩, mass := 2, inverseMass := 1/2,
          restitution := 1 } :=
  c4_resolve_conserves_momentum ratSqrtF
    { position := ⟨-1, 0⟩, linearVelocity := ⟨10, 0⟩, mass := 2, inverseMass := 1/2,
      restitution := 1 }
    { position := ⟨1, 0⟩, linearVelocity := ⟨-10, 0⟩, mass := 2, inverseMass := 1/2,
      restitution := 1 }
    { normal := ⟨1, 0⟩, contact1 := ⟨0, 0⟩, contact2 := ⟨0, 0⟩, contactCount := 1,
      penetration := (0 : ℚ), inCollision := true }
    { normal := ⟨1, 0⟩, contact1 := ⟨0, 0⟩, contact2 := ⟨0, 0⟩, contactCount := 1,
      penetration := 0, inCollision := true }
    (by norm_num) (by norm_num) (by norm_num) (by norm_num)

/-! ## Pair resolution with positional correction (`narrowPhase` in
`src/src/main.cpp`; `resolvePair` in `src/src/world.cpp`) -/

/-- `narrowPhase` from `src/src/main.cpp`: SAT test, early return when
not colliding, impulse resolution, then positional correction with
`percent = 0.8`, `slop = 0.01`, guarded by `invMassSum > 0` and by each
body's static flag, setting the dirty flags of the corrected bodies.
`WithTop.untop' 0` converts the penetration; a `⊤` penetration can only
reach this point for empty-vertex bodies, where the C++ arithmetic on
`inf` is equally meaningless. -/
def narrowPhase (sq : ℚ → ℚ) (A B : RigidBody) : RigidBody × RigidBody :=
  let m := SATCollisionCur sq A B
  if m.inCollision = true then
    let r := resolveCollision sq A B m
    let percent : ℚ := 8/10
    let slop : ℚ := 1/100
    let invMassSum := r.1.inverseMass + r.2.inverseMass
    if 0 < invMassSum then
      let corrMag := max (WithTop.untop' 0 m.penetration - slop) 0 / invMassSum * percent
      let correction := Vec2.scale m.normal corrMag
      (if r.1.isStatic = false then
          { r.1 with position := r.1.position - Vec2.scale correction r.1.inverseMass,
                     update := true }
        else r.1,
       if r.2.isStatic = false then
          { r.2 with position := r.2.position + Vec2.scale correction r.2.inverseMass,
                     update := true }
        else r.2)
    else r
  else (A, B)

/-- `resolvePair` from `src/src/world.cpp`: SAT test (the era-matching
`≤`-version), then positional correction with `percent = 0.4` and *no*
dirty flags, and only then the frictionless impulse resolution — the
reverse order of `narrowPhase`. -/
def resolvePairOld (sq : ℚ → ℚ) (A B : RigidBody) : RigidBody × RigidBody :=
  let m := SATCollisionLeq sq A B
  if m.inCollision = true then
    let percent : ℚ := 4/10
    let slop : ℚ := 1/100
    let invMassSum := A.inverseMass + B.inverseMass
    let corrected :=
      if 0 < invMassSum then
        let corrMag := max (m.penetration - slop) 0 / invMassSum * percent
        let correction := Vec2.scale m.normal corrMag
        (if A.isStatic = false then
            { A with position := A.position - Vec2.scale correction A.inverseMass }
          else A,
         if B.isStatic = false then
            { B with position := B.position + Vec2.scale correction B.inverseMass }
          else B)
      else (A, B)
    resolveCollisionOld corrected.1 corrected.2 m
  else (A, B)

set_option maxRecDepth 4000 in
/-- C7, counterexample.  In `resolvePair` of `src/src/world.cpp` the
positional correction runs *before* the impulses, uses `percent = 0.4`,
and sets no dirty flag.  A unit square (inverse mass 1) overlapping a
static square by 0.1 ends at `x = −0.4·(0.1−0.01) = −0.036 = −9/250`,
not at the `−0.8·0.09 = −9/125` the claim (percent 0.8) prescribes, and
its dirty flag stays clear. -/
theorem c7_resolvePairOld_uses_04_before_impulses :
    (resolvePairOld ratSqrtF
      { position := ⟨0, 0⟩, mass := 1, inverseMass := 1,
        transformedVertices := [⟨-1/2, -1/2⟩, ⟨1/2, -1/2⟩, ⟨1/2, 1/2⟩, ⟨-1/2, 1/2⟩] }
      { position := ⟨9/10, 0⟩, isStatic := true,
        transformedVertices := [⟨2/5, -1/2⟩, ⟨7/5, -1/2⟩, ⟨7/5, 1/2⟩, ⟨2/5, 1/2⟩] }
      ).1.position = ⟨-9/250, 0⟩ ∧
    (resolvePairOld ratSqrtF
      { position := ⟨0, 0⟩, mass := 1, inverseMass := 1,
        transformedVertices := [⟨-1/2, -1/2⟩, ⟨1/2, -1/2⟩, ⟨1/2, 1/2⟩, ⟨-1/2, 1/2⟩] }
      { position := ⟨9/10, 0⟩, isStatic := true,
        transformedVertices := [⟨2/5, -1/2⟩, ⟨7/5, -1/2⟩, ⟨7/5, 1/2⟩, ⟨2/5, 1/2⟩] }
      ).1.position ≠ ⟨-9/125, 0⟩ ∧
    (resolvePairOld ratSqrtF
      { position := ⟨0, 0⟩, mass := 1, inverseMass := 1,
        transformedVertices := [⟨-1/2, -1/2⟩, ⟨1/2, -1/2⟩, ⟨1/2, 1/2⟩, ⟨-1/2, 1/2⟩] }
      { position := ⟨9/10, 0⟩, isStatic := true,
        transformedVertices := [⟨2/5, -1/2⟩, ⟨7/5, -1/2⟩, ⟨7/5, 1/2⟩, ⟨2/5, 1/2⟩] }
      ).1.update = false := by
  with_unfolding_all decide

/-- C7, amended.  In the current `narrowPhase` (`src/src/main.cpp`) the
correction does run after the impulse pass, with `percent = 0.8` and
`slop = 0.01`: when `inv_mass_sum > 0` the returned bodies equal the
post-impulse bodies with `normal · max(penetration−slop,0)/inv_mass_sum ·
0.8` subtracted from (resp. added to) the position scaled by the inverse
mass and the dirty flag set, the subtraction being skipped for a body
whose static flag is set; when `inv_mass_sum = 0` both positions are
unchanged.  (`resolvePair` of `src/src/world.cpp` instead corrects
before the impulses with `percent = 0.4` and no flags; see the
counterexample.) -/
theorem c7_narrowPhase_correction_after_impulses (sq : ℚ → ℚ) (A B : RigidBody)
    (p : ℚ) (hcol : (SATCollisionCur sq A B).inCollision = true)
    (hpen : (SATCollisionCur sq A B).penetration = (p : ℚ)) :
    (0 < A.inverseMass + B.inverseMass →
      (narrowPhase sq A B).1 =
        (if A.isStatic = false then
          { (resolveCollision sq A B (SATCollisionCur sq A B)).1 with
              position := A.position - Vec2.scale
                (Vec2.scale (SATCollisionCur sq A B).normal
                  (max (p - 1/100) 0 / (A.inverseMass + B.inverseMass) * (8/10)))
                A.inverseMass,
              update := true }
        else (resolveCollision sq A B (SATCollisionCur sq A B)).1) ∧
      (narrowPhase sq A B).2 =
        (if B.isStatic = false then
          { (resolveCollision sq A B (SATCollisionCur sq A B)).2 with
              position := B.position + Vec2.scale
                (Vec2.scale (SATCollisionCur sq A B).normal
                  (max (p - 1/100) 0 / (A.inverseMass + B.inverseMass) * (8/10)))
                B.inverseMass,
              update := true }
        else (resolveCollision sq A B (SATCollisionCur sq A B)).2)) ∧
    (A.inverseMass + B.inverseMass = 0 →
      (narrowPhase sq A B).1.position = A.position ∧
      (narrowPhase sq A B).2.position = B.position) := by
  have hp := applyImpulses_preserved
    (collectImpulses sq A B (SATCollisionCur sq A B)) A B
  obtain ⟨hpos1, -, hstat1, hinv1, -, -, -, -, -,
    hpos2, -, hstat2, hinv2, -, -, -, -, -⟩ := hp
  simp only [narrowPhase, hcol, if_true, hpen, WithTop.untop'_coe]
  rw [show resolveCollision sq A B (SATCollisionCur sq A B) =
    applyImpulses (collectImpulses sq A B (SATCollisionCur sq A B)) A B from rfl] at *
  rw [hinv1, hinv2, hstat1, hstat2, hpos1, hpos2]
  constructor
  · intro hpos
    rw [if_pos hpos]
    exact ⟨rfl, rfl⟩
  · intro hzero
    rw [if_neg (by rw [hzero]; exact lt_irrefl 0)]
    exact ⟨hpos1, hpos2⟩

set_option maxRecDepth 4000 in
/-- Witness for C7 (amended): the same overlapping pair as the
counterexample, resolved by the current `narrowPhase`, ends at
`x = −0.8·(0.1−0.01) = −9/125` with its dirty flag set. -/
theorem c7_narrowPhase_correction_after_impulses_witness :
    (narrowPhase ratSqrtF
      { position := ⟨0, 0⟩, mass := 1, inverseMass := 1,
        transformedVertices := [⟨-1/2, -1/2⟩, ⟨1/2, -1/2⟩, ⟨1/2, 1/2⟩, ⟨-1/2, 1/2⟩] }
      { position := ⟨9/10, 0⟩, isStatic := true,
        transformedVertices := [⟨2/5, -1/2⟩, ⟨7/5, -1/2⟩, ⟨7/5, 1/2⟩, ⟨2/5, 1/2⟩] }
      ).1.position = ⟨-9/125, 0⟩ ∧
    (narrowPhase ratSqrtF
      { position := ⟨0, 0⟩, mass := 1, inverseMass := 1,
        transformedVertices := [⟨-1/2, -1/2⟩, ⟨1/2, -1/2⟩, ⟨1/2, 1/2⟩, ⟨-1/2, 1/2⟩] }
      { position := ⟨9/10, 0⟩, isStatic := true,
        transformedVertices := [⟨2/5, -1/2⟩, ⟨7/5, -1/2⟩, ⟨7/5, 1/2⟩, ⟨2/5, 1/2⟩] }
      ).1.update = true := by
  have h := (c7_narrowPhase_correction_after_impulses ratSqrtF
    { position := ⟨0, 0⟩, mass := 1, inverseMass := 1,
      transformedVertices := [⟨-1/2, -1/2⟩, ⟨1/2, -1/2⟩, ⟨1/2, 1/2⟩, ⟨-1/2, 1/2⟩] }
    { position := ⟨9/10, 0⟩, isStatic := true,
      transformedVertices := [⟨2/5, -1/2⟩, ⟨7/5, -1/2⟩, ⟨7/5, 1/2⟩, ⟨2/5, 1/2⟩] }
    (1/10) (by with_unfolding_all decide) (by with_unfolding_all decide)).1
    (by with_unfolding_all decide)
  rw [h.1]
  with_unfolding_all decide

/-! ## Spatial hash broad phase (`include/collision/Partioning.hpp`) -/

/-- `GridConfig` with its default cell size of 2 world units. -/
structure GridConfig where
  cellSize : ℚ := 2
deriving DecidableEq, Repr

/-- `uint32_t(z)` for an `int` value: reduction mod `2^32`. -/
def u32 (z : ℤ) : ℕ := (z % (2 ^ 32 : ℤ)).toNat

/-- `cellKey`: packs two cell coordinates into one 64-bit key,
`(uint64(uint32 cx) << 32) | uint32 cy`. -/
def cellKey (cx cy : ℤ) : ℕ := u32 cx * 2 ^ 32 + u32 cy

/-- `pairKey`: sorts the two indices and packs them,
`(uint64(uint32 a) << 32) | uint32 b` with `a ≤ b`.  Body indices are
non-negative `int` values, hence `ℕ` here. -/
def pairKey (a b : ℕ) : ℕ :=
  if b < a then b % 2 ^ 32 * 2 ^ 32 + a % 2 ^ 32
  else a % 2 ^ 32 * 2 ^ 32 + b % 2 ^ 32

/-- `cellCoord`: `static_cast<int>(std::floor(x / cellSize))`. -/
def cellCoord (x cellSize : ℚ) : ℤ := Int.floor (x / cellSize)

/-- The inclusive integer range `[lo..hi]` (empty when `hi < lo`). -/
def intRange (lo hi : ℤ) : List ℤ :=
  (List.range (hi + 1 - lo).toNat).map (fun k : ℕ => lo + (k : ℤ))

/-- The grid cells covered by an AABB, in the iteration order of the
insertion loops (`cy` outer, `cx` inner). -/
def coveredCells (b : AABB) (cellSize : ℚ) : List (ℤ × ℤ) :=
  let x0 := cellCoord b.min.x cellSize
  let x1 := cellCoord b.max.x cellSize
  let y0 := cellCoord b.min.y cellSize
  let y1 := cellCoord b.max.y cellSize
  (intRange y0 y1).foldr
    (fun cy acc => (intRange x0 x1).map (fun cx => (cx, cy)) ++ acc) []

/-- `buckets[key].push_back(i)` on the association-list model of the
unordered map (the map's iteration order is unspecified in C++; the
properties proved are order-independent). -/
def bucketsInsert (bs : List (ℕ × List ℕ)) (k : ℕ) (i : ℕ) : List (ℕ × List ℕ) :=
  match bs with
  | [] => [(k, [i])]
  | (k0, l0) :: rest =>
    if k0 = k then (k0, l0 ++ [i]) :: rest else (k0, l0) :: bucketsInsert rest k i

/-- Insert index `i` into the bucket of every covered cell. -/
def insertAABB (bs : List (ℕ × List ℕ)) (cells : List (ℤ × ℤ)) (i : ℕ) :
    List (ℕ × List ℕ) :=
  cells.foldl (fun bs c => bucketsInsert bs (cellKey c.1 c.2) i) bs

/-- The bucket-building pass of `buildPairsFromAABBs`. -/
def buildBuckets (aabbs : List AABB) (cellSize : ℚ) : List (ℕ × List ℕ) :=
  (List.range aabbs.length).foldl
    (fun bs i =>
      insertAABB bs (coveredCells (aabbs.getD i ⟨⟨0, 0⟩, ⟨0, 0⟩⟩) cellSize) i) []

/-- All unordered index pairs of one bucket, in the order of the double
loop (`a` outer, `b = a+1..` inner). -/
def allPairsOf (ids : List ℕ) : List (ℕ × ℕ) :=
  match ids with
  | [] => []
  | x :: xs => xs.map (fun y => (x, y)) ++ allPairsOf xs

/-- The seen-set filter: emit each pair whose `pairKey` has not been
seen, accumulating the set (modelled as a list) and the output. -/
def emitPairs : List (ℕ × ℕ) → List ℕ → List (ℕ × ℕ) → List ℕ × List (ℕ × ℕ)
  | [], seen, out => (seen, out)
  | p :: ps, seen, out =>
    let pk := pairKey p.1 p.2
    if pk ∈ seen then emitPairs ps seen out
    else emitPairs ps (pk :: seen) (out ++ [p])

/-- `buildPairsFromAABBs` from `Partioning.hpp`: hash every AABB into
the covered cells, then emit the unique pairs of every bucket with at
least two entries. -/
def buildPairsFromAABBs (aabbs : List AABB) (cfg : GridConfig) : List (ℕ × ℕ) :=
  let buckets := buildBuckets aabbs cfg.cellSize
  (buckets.foldl
    (fun acc bucket =>
      if bucket.2.length < 2 then acc
      else emitPairs (allPairsOf bucket.2) acc.1 acc.2)
    ([], [])).2

/-- The cell coordinates of an AABB fit in a 32-bit `int` (the C++
works with `int` cell coordinates and packs them as `uint32_t`). -/
def cellsInRange (b : AABB) (cs : ℚ) : Prop :=
  -2 ^ 31 ≤ cellCoord b.min.x cs ∧ cellCoord b.max.x cs < 2 ^ 31 ∧
  -2 ^ 31 ≤ cellCoord b.min.y cs ∧ cellCoord b.max.y cs < 2 ^ 31

instance (b : AABB) (cs : ℚ) : Decidable (cellsInRange b cs) :=
  inferInstanceAs (Decidable (_ ∧ _))

theorem cellKey_inj (cx cy cx1 cy1 : ℤ)
    (hx : -2 ^ 31 ≤ cx ∧ cx < 2 ^ 31) (hy : -2 ^ 31 ≤ cy ∧ cy < 2 ^ 31)
    (hx1 : -2 ^ 31 ≤ cx1 ∧ cx1 < 2 ^ 31) (hy1 : -2 ^ 31 ≤ cy1 ∧ cy1 < 2 ^ 31)
    (h : cellKey cx cy = cellKey cx1 cy1) : cx = cx1 ∧ cy = cy1 := by
  unfold cellKey u32 at h
  omega

theorem pairKey_eq_of_lt (a b : ℕ) (ha : a < 2 ^ 31) (hb : b < 2 ^ 31) (hab : a < b) :
    pairKey a b = a * 2 ^ 32 + b := by
  unfold pairKey
  rw [if_neg (by omega), Nat.mod_eq_of_lt (by omega), Nat.mod_eq_of_lt (by omega)]

theorem pairKey_inj (a b a1 b1 : ℕ) (ha : a < 2 ^ 31) (hb : b < 2 ^ 31)
    (ha1 : a1 < 2 ^ 31) (hb1 : b1 < 2 ^ 31) (hab : a < b) (hab1 : a1 < b1)
    (h : pairKey a b = pairKey a1 b1) : a = a1 ∧ b = b1 := by
  rw [pairKey_eq_of_lt a b ha hb hab, pairKey_eq_of_lt a1 b1 ha1 hb1 hab1] at h
  omega

theorem mem_intRange (lo hi v : ℤ) : v ∈ intRange lo hi ↔ lo ≤ v ∧ v ≤ hi := by
  unfold intRange
  simp only [List.mem_map, List.mem_range]
  constructor
  · rintro ⟨k, hk, rfl⟩
    omega
  · rintro ⟨h1, h2⟩
    exact ⟨(v - lo).toNat, by omega, by omega⟩

theorem intRange_nodup (lo hi : ℤ) : (intRange lo hi).Nodup := by
  unfold intRange
  exact (List.nodup_range _).map fun a b hab => by omega

theorem mem_prodFold (xs ys : List ℤ) (c : ℤ × ℤ) :
    c ∈ ys.foldr (fun cy acc => xs.map (fun cx => (cx, cy)) ++ acc) [] ↔
      c.1 ∈ xs ∧ c.2 ∈ ys := by
  induction ys with
  | nil => simp
  | cons y ys ih =>
    simp only [List.foldr_cons, List.mem_append, List.mem_map, ih, List.mem_cons]
    constructor
    · rintro (⟨cx, hcx, rfl⟩ | ⟨h1, h2⟩)
      · exact ⟨hcx, Or.inl rfl⟩
      · exact ⟨h1, Or.inr h2⟩
    · rintro ⟨h1, rfl | h2⟩
      · exact Or.inl ⟨c.1, h1, rfl⟩
      · exact Or.inr ⟨h1, h2⟩

theorem prodFold_nodup (xs ys : List ℤ) (hx : xs.Nodup) (hy : ys.Nodup) :
    (ys.foldr (fun cy acc => xs.map (fun cx => (cx, cy)) ++ acc) []).Nodup := by
  induction ys with
  | nil => simp
  | cons y ys ih =>
    have hy2 := List.nodup_cons.mp hy
    simp only [List.foldr_cons]
    refine List.Nodup.append (hx.map ?_) (ih hy2.2) ?_
    · intro a b hab
      simpa using congrArg Prod.fst hab
    · intro c hc1 hc2
      obtain ⟨cx, _, rfl⟩ := List.mem_map.mp hc1
      have := (mem_prodFold xs ys _).mp hc2
      exact hy2.1 this.2

theorem mem_coveredCells (b : AABB) (cs : ℚ) (c : ℤ × ℤ) :
    c ∈ coveredCells b cs ↔
      cellCoord b.min.x cs ≤ c.1 ∧ c.1 ≤ cellCoord b.max.x cs ∧
      cellCoord b.min.y cs ≤ c.2 ∧ c.2 ≤ cellCoord b.max.y cs := by
  unfold coveredCells
  rw [mem_prodFold, mem_intRange, mem_intRange]
  tauto

theorem coveredCells_nodup (b : AABB) (cs : ℚ) : (coveredCells b cs).Nodup :=
  prodFold_nodup _ _ (intRange_nodup _ _) (intRange_nodup _ _)

/-- Under the 32-bit range condition, the packed keys of the covered
cells of one AABB are pairwise distinct. -/
theorem coveredCells_keys_nodup (b : AABB) (cs : ℚ) (hr : cellsInRange b cs) :
    ((coveredCells b cs).map (fun c => cellKey c.1 c.2)).Nodup := by
  obtain ⟨h1, h2, h3, h4⟩ := hr
  refine (coveredCells_nodup b cs).map_on ?_
  intro c hc d hd hkey
  have hcb := (mem_coveredCells b cs c).mp hc
  have hdb := (mem_coveredCells b cs d).mp hd
  have := cellKey_inj c.1 c.2 d.1 d.2
    ⟨by omega, by omega⟩ ⟨by omega, by omega⟩ ⟨by omega, by omega⟩ ⟨by omega, by omega⟩ hkey
  exact Prod.ext this.1 this.2

/-- Index `j` sits in the bucket keyed `k`. -/
def inBucket (bs : List (ℕ × List ℕ)) (k : ℕ) (j : ℕ) : Prop :=
  ∃ l, (k, l) ∈ bs ∧ j ∈ l

theorem bucketsInsert_preserves (bs : List (ℕ × List ℕ)) (k1 i k j : ℕ)
    (h : inBucket bs k j) : inBucket (bucketsInsert bs k1 i) k j := by
  induction bs with
  | nil => obtain ⟨l, hl, _⟩ := h; cases hl
  | cons hd rest ih =>
    obtain ⟨k0, l0⟩ := hd
    obtain ⟨l, hl, hj⟩ := h
    by_cases hk : k0 = k1
    · simp only [bucketsInsert, if_pos hk]
      rcases List.mem_cons.mp hl with heq | hmem
      · have h1 : k = k0 := congrArg Prod.fst heq
        have h2 : l = l0 := congrArg Prod.snd heq
        subst h1
        subst h2
        exact ⟨l ++ [i], List.mem_cons_self _ _, List.mem_append_left _ hj⟩
      · exact ⟨l, List.mem_cons_of_mem _ hmem, hj⟩
    · simp only [bucketsInsert, if_neg hk]
      rcases List.mem_cons.mp hl with heq | hmem
      · exact ⟨l, heq ▸ List.mem_cons_self _ _, hj⟩
      · obtain ⟨l2, hl2, hj2⟩ := ih ⟨l, hmem, hj⟩
        exact ⟨l2, List.mem_cons_of_mem _ hl2, hj2⟩

theorem bucketsInsert_mem_self (bs : List (ℕ × List ℕ)) (k i : ℕ) :
    inBucket (bucketsInsert bs k i) k i := by
  induction bs with
  | nil => exact ⟨[i], List.mem_singleton_self _, List.mem_singleton_self _⟩
  | cons hd rest ih =>
    obtain ⟨k0, l0⟩ := hd
    by_cases hk : k0 = k
    · subst hk
      simp only [bucketsInsert, if_pos rfl]
      exact ⟨l0 ++ [i], List.mem_cons_self _ _,
        List.mem_append_right _ (List.mem_singleton_self _)⟩
    · simp only [bucketsInsert, if_neg hk]
      obtain ⟨l, hl, hj⟩ := ih
      exact ⟨l, List.mem_cons_of_mem _ hl, hj⟩

/-- Every bucket after an insert is an old bucket, the old bucket at the
inserted key with the index appended, or the fresh singleton bucket. -/
theorem bucketsInsert_cases (bs : List (ℕ × List ℕ)) (k1 i : ℕ) :
    ∀ kl ∈ bucketsInsert bs k1 i,
      kl ∈ bs ∨
      (kl.1 = k1 ∧ kl.2 = [i]) ∨
      (∃ l, (kl.1, l) ∈ bs ∧ kl.1 = k1 ∧ kl.2 = l ++ [i]) := by
  induction bs with
  | nil =>
    intro kl hkl
    rcases List.mem_singleton.mp hkl with rfl
    exact Or.inr (Or.inl ⟨rfl, rfl⟩)
  | cons hd rest ih =>
    obtain ⟨k0, l0⟩ := hd
    intro kl hkl
    by_cases hk : k0 = k1
    · subst hk
      simp only [bucketsInsert, if_pos rfl] at hkl
      rcases List.mem_cons.mp hkl with rfl | hmem
      · exact Or.inr (Or.inr ⟨l0, List.mem_cons_self _ _, rfl, rfl⟩)
      · exact Or.inl (List.mem_cons_of_mem _ hmem)
    · simp only [bucketsInsert, if_neg hk] at hkl
      rcases List.mem_cons.mp hkl with rfl | hmem
      · exact Or.inl (List.mem_cons_self _ _)
      · rcases ih kl hmem with h | h | ⟨l, hl, h1, h2⟩
        · exact Or.inl (List.mem_cons_of_mem _ h)
        · exact Or.inr (Or.inl h)
        · exact Or.inr (Or.inr ⟨l, List.mem_cons_of_mem _ hl, h1, h2⟩)

theorem insertAABB_preserves (cells : List (ℤ × ℤ)) (bs : List (ℕ × List ℕ))
    (i k j : ℕ) (h : inBucket bs k j) : inBucket (insertAABB bs cells i) k j := by
  induction cells generalizing bs with
  | nil => exact h
  | cons c cs ih => exact ih _ (bucketsInsert_preserves bs _ i k j h)

theorem insertAABB_mem (cells : List (ℤ × ℤ)) (bs : List (ℕ × List ℕ)) (i : ℕ) :
    ∀ c ∈ cells, inBucket (insertAABB bs cells i) (cellKey c.1 c.2) i := by
  induction cells generalizing bs with
  | nil => intro c hc; cases hc
  | cons c0 cs ih =>
    intro c hc
    rcases List.mem_cons.mp hc with rfl | hmem
    · exact insertAABB_preserves cs _ i _ i (bucketsInsert_mem_self bs _ i)
    · exact ih _ c hmem

theorem insertAABB_wf_aux (cells : List (ℤ × ℤ)) (bs : List (ℕ × List ℕ)) (i : ℕ)
    (hkeys : (cells.map (fun c => cellKey c.1 c.2)).Nodup)
    (hin : ∀ kl ∈ bs, List.Pairwise (· < ·) kl.2 ∧ (∀ x ∈ kl.2, x < i + 1) ∧
      (kl.1 ∈ cells.map (fun c => cellKey c.1 c.2) → i ∉ kl.2)) :
    ∀ kl ∈ insertAABB bs cells i,
      List.Pairwise (· < ·) kl.2 ∧ ∀ x ∈ kl.2, x < i + 1 := by
  induction cells generalizing bs with
  | nil => exact fun kl hkl => ⟨(hin kl hkl).1, (hin kl hkl).2.1⟩
  | cons c0 cs ih =>
    simp only [List.map_cons, List.nodup_cons] at hkeys
    refine ih _ hkeys.2 ?_
    intro kl hkl
    rcases bucketsInsert_cases bs _ i kl hkl with hold | ⟨hk, hl⟩ | ⟨l, hlmem, hk, hl⟩
    · obtain ⟨h1, h2, h3⟩ := hin kl hold
      exact ⟨h1, h2, fun hmem => h3 (List.mem_cons_of_mem _ hmem)⟩
    · refine ⟨by rw [hl]; exact List.pairwise_singleton _ _,
        by rw [hl]; intro x hx; rw [List.mem_singleton.mp hx]; omega,
        fun hmem => absurd (hk ▸ hmem) hkeys.1⟩
    · obtain ⟨h1, h2, h3⟩ := hin (kl.1, l) hlmem
      have hiabs : i ∉ l := h3 (by rw [hk]; exact List.mem_cons_self _ _)
      have hlt : ∀ x ∈ l, x < i := by
        intro x hx
        have := h2 x hx
        rcases Nat.lt_succ_iff_lt_or_eq.mp this with h | rfl
        · exact h
        · exact absurd hx hiabs
      refine ⟨?_, ?_, fun hmem => absurd (hk ▸ hmem) hkeys.1⟩
      · rw [hl]
        rw [List.pairwise_append]
        exact ⟨h1, List.pairwise_singleton _ _,
          fun x hx y hy => (List.mem_singleton.mp hy) ▸ hlt x hx⟩
      · rw [hl]
        intro x hx
        rcases List.mem_append.mp hx with h | h
        · exact h2 x h
        · rw [List.mem_singleton.mp h]; omega

theorem insertAABB_wf (cells : List (ℤ × ℤ)) (bs : List (ℕ × List ℕ)) (i : ℕ)
    (hkeys : (cells.map (fun c => cellKey c.1 c.2)).Nodup)
    (hwf : ∀ kl ∈ bs, List.Pairwise (· < ·) kl.2 ∧ ∀ x ∈ kl.2, x < i) :
    ∀ kl ∈ insertAABB bs cells i,
      List.Pairwise (· < ·) kl.2 ∧ ∀ x ∈ kl.2, x < i + 1 := by
  refine insertAABB_wf_aux cells bs i hkeys ?_
  intro kl hkl
  obtain ⟨h1, h2⟩ := hwf kl hkl
  exact ⟨h1, fun x hx => Nat.lt_succ_of_lt (h2 x hx),
    fun _ hmem => absurd rfl (Nat.ne_of_lt (h2 i hmem)).symm⟩

theorem buildBuckets_aux (aabbs : List AABB) (cs : ℚ)
    (hr : ∀ a ∈ aabbs, cellsInRange a cs) (m : ℕ) (hm : m ≤ aabbs.length) :
    (∀ kl ∈ (List.range m).foldl
        (fun bs i => insertAABB bs (coveredCells (aabbs.getD i ⟨⟨0, 0⟩, ⟨0, 0⟩⟩) cs) i) [],
      List.Pairwise (· < ·) kl.2 ∧ ∀ x ∈ kl.2, x < m) ∧
    (∀ j, j < m → ∀ c ∈ coveredCells (aabbs.getD j ⟨⟨0, 0⟩, ⟨0, 0⟩⟩) cs,
      inBucket ((List.range m).foldl
        (fun bs i => insertAABB bs (coveredCells (aabbs.getD i ⟨⟨0, 0⟩, ⟨0, 0⟩⟩) cs) i) [])
        (cellKey c.1 c.2) j) := by
  induction m with
  | zero => exact ⟨fun kl hkl => absurd hkl (List.not_mem_nil kl), fun j hj => by omega⟩
  | succ m ih =>
    obtain ⟨ihwf, ihmem⟩ := ih (Nat.le_of_succ_le hm)
    have hmm : m < aabbs.length := hm
    have hget : aabbs.getD m ⟨⟨0, 0⟩, ⟨0, 0⟩⟩ ∈ aabbs := by
      rw [List.getD_eq_getElem aabbs _ hmm]
      exact List.getElem_mem hmm
    have hkeys := coveredCells_keys_nodup (aabbs.getD m ⟨⟨0, 0⟩, ⟨0, 0⟩⟩) cs
      (hr _ hget)
    rw [List.range_succ, List.foldl_append, List.foldl_cons, List.foldl_nil]
    constructor
    · exact insertAABB_wf _ _ m hkeys ihwf
    · intro j hj c hc
      rcases Nat.lt_succ_iff_lt_or_eq.mp hj with hjm | rfl
      · exact insertAABB_preserves _ _ m _ j (ihmem j hjm c hc)
      · exact insertAABB_mem _ _ j c hc

theorem buildBuckets_spec (aabbs : List AABB) (cs : ℚ)
    (hr : ∀ a ∈ aabbs, cellsInRange a cs) :
    (∀ kl ∈ buildBuckets aabbs cs,
      List.Pairwise (· < ·) kl.2 ∧ ∀ x ∈ kl.2, x < aabbs.length) ∧
    (∀ j, j < aabbs.length → ∀ c ∈ coveredCells (aabbs.getD j ⟨⟨0, 0⟩, ⟨0, 0⟩⟩) cs,
      inBucket (buildBuckets aabbs cs) (cellKey c.1 c.2) j) :=
  buildBuckets_aux aabbs cs hr aabbs.length (le_refl _)

theorem mem_allPairsOf (ids : List ℕ) (hp : List.Pairwise (· < ·) ids) (i j : ℕ) :
    (i, j) ∈ allPairsOf ids ↔ i ∈ ids ∧ j ∈ ids ∧ i < j := by
  induction ids with
  | nil => simp [allPairsOf]
  | cons x xs ih =>
    obtain ⟨hx, hxs⟩ := List.pairwise_cons.mp hp
    simp only [allPairsOf]
    constructor
    · intro h
      rcases List.mem_append.mp h with h1 | h2
      · obtain ⟨y, hy, heq⟩ := List.mem_map.mp h1
        have e1 : x = i := congrArg Prod.fst heq
        have e2 : y = j := congrArg Prod.snd heq
        subst e1
        subst e2
        exact ⟨List.mem_cons_self _ _, List.mem_cons_of_mem _ hy, hx y hy⟩
      · obtain ⟨h1, h2, h3⟩ := (ih hxs).mp h2
        exact ⟨List.mem_cons_of_mem _ h1, List.mem_cons_of_mem _ h2, h3⟩
    · rintro ⟨hi, hj, hij⟩
      rcases List.mem_cons.mp hi with rfl | hi2
      · rcases List.mem_cons.mp hj with rfl | hj2
        · exact absurd hij (lt_irrefl _)
        · exact List.mem_append_left _ (List.mem_map.mpr ⟨j, hj2, rfl⟩)
      · rcases List.mem_cons.mp hj with rfl | hj2
        · exact absurd hij (by have := hx i hi2; omega)
        · exact List.mem_append_right _ ((ih hxs).mpr ⟨hi2, hj2, hij⟩)

/-- A strictly sorted list holding two distinct elements has at least
two entries — the `ids.size() < 2` skip cannot drop a real pair. -/
theorem two_le_length_of_two_mem (ids : List ℕ) (hp : List.Pairwise (· < ·) ids)
    (i j : ℕ) (hi : i ∈ ids) (hj : j ∈ ids) (hij : i < j) : 2 ≤ ids.length := by
  match ids with
  | [] => cases hi
  | [x] =>
    rw [List.mem_singleton.mp hi, List.mem_singleton.mp hj] at hij
    exact absurd hij (lt_irrefl _)
  | x :: y :: rest => simp

theorem emitPairs_out_mono (ps : List (ℕ × ℕ)) (seen : List ℕ) (out : List (ℕ × ℕ)) :
    ∀ p ∈ out, p ∈ (emitPairs ps seen out).2 := by
  induction ps generalizing seen out with
  | nil => exact fun p hp => hp
  | cons q qs ih =>
    intro p hp
    simp only [emitPairs]
    split
    · exact ih _ _ p hp
    · exact ih _ _ p (List.mem_append_left _ hp)

theorem emitPairs_src (ps : List (ℕ × ℕ)) (seen : List ℕ) (out : List (ℕ × ℕ)) :
    ∀ p ∈ (emitPairs ps seen out).2, p ∈ out ∨ p ∈ ps := by
  induction ps generalizing seen out with
  | nil => exact fun p hp => Or.inl hp
  | cons q qs ih =>
    intro p hp
    simp only [emitPairs] at hp
    revert hp
    split
    · intro hp
      rcases ih _ _ p hp with h | h
      · exact Or.inl h
      · exact Or.inr (List.mem_cons_of_mem _ h)
    · intro hp
      rcases ih _ _ p hp with h | h
      · rcases List.mem_append.mp h with h1 | h2
        · exact Or.inl h1
        · exact Or.inr (List.mem_singleton.mp h2 ▸ List.mem_cons_self _ _)
      · exact Or.inr (List.mem_cons_of_mem _ h)

theorem emitPairs_sync (ps : List (ℕ × ℕ)) (seen : List ℕ) (out : List (ℕ × ℕ))
    (h : ∀ pk, pk ∈ seen ↔ pk ∈ out.map (fun p => pairKey p.1 p.2)) :
    ∀ pk, pk ∈ (emitPairs ps seen out).1 ↔
      pk ∈ (emitPairs ps seen out).2.map (fun p => pairKey p.1 p.2) := by
  induction ps generalizing seen out with
  | nil => exact h
  | cons q qs ih =>
    simp only [emitPairs]
    split
    · exact ih _ _ h
    · refine ih _ _ ?_
      intro pk
      simp only [List.mem_cons, List.map_append, List.mem_append, List.map_cons,
        List.map_nil, List.mem_singleton, h pk]
      tauto

theorem emitPairs_nodup (ps : List (ℕ × ℕ)) (seen : List ℕ) (out : List (ℕ × ℕ))
    (h : ∀ pk, pk ∈ seen ↔ pk ∈ out.map (fun p => pairKey p.1 p.2))
    (hnd : (out.map (fun p => pairKey p.1 p.2)).Nodup) :
    ((emitPairs ps seen out).2.map (fun p => pairKey p.1 p.2)).Nodup := by
  induction ps generalizing seen out with
  | nil => exact hnd
  | cons q qs ih =>
    simp only [emitPairs]
    split
    · exact ih _ _ h hnd
    · rename_i hnotseen
      refine ih _ _ ?_ ?_
      · intro pk
        simp only [List.mem_cons, List.map_append, List.mem_append, List.map_cons,
          List.map_nil, List.mem_singleton, h pk]
        tauto
      · rw [List.map_append]
        rw [List.nodup_append]
        refine ⟨hnd, List.nodup_singleton _, ?_⟩
        intro pk hpk1 hpk2
        simp only [List.map_cons, List.map_nil, List.mem_singleton] at hpk2
        exact hnotseen ((h pk).mpr hpk1 |> (hpk2 ▸ ·))

theorem emitPairs_complete (ps : List (ℕ × ℕ)) (seen : List ℕ) (out : List (ℕ × ℕ))
    (h : ∀ pk, pk ∈ seen ↔ pk ∈ out.map (fun p => pairKey p.1 p.2)) :
    ∀ p ∈ ps, pairKey p.1 p.2 ∈
      (emitPairs ps seen out).2.map (fun p => pairKey p.1 p.2) := by
  induction ps generalizing seen out with
  | nil => intro p hp; cases hp
  | cons q qs ih =>
    intro p hp
    simp only [emitPairs]
    split
    · rename_i hseen
      rcases List.mem_cons.mp hp with rfl | hmem
      · obtain ⟨p1, hp1, hkey⟩ := List.mem_map.mp ((h _).mp hseen)
        exact List.mem_map.mpr ⟨p1, emitPairs_out_mono qs seen out p1 hp1, hkey⟩
      · exact ih _ _ h p hmem
    · rename_i hnotseen
      have hsync2 : ∀ pk, pk ∈ pairKey q.1 q.2 :: seen ↔
          pk ∈ (out ++ [q]).map (fun p => pairKey p.1 p.2) := by
        intro pk
        simp only [List.mem_cons, List.map_append, List.mem_append, List.map_cons,
          List.map_nil, List.mem_singleton, h pk]
        tauto
      rcases List.mem_cons.mp hp with rfl | hmem
      · refine List.mem_map.mpr ⟨p, ?_, rfl⟩
        exact emitPairs_out_mono qs _ _ p (List.mem_append_right _ (List.mem_singleton_self _))
      · exact ih _ _ hsync2 p hmem

theorem bucketsInsert_keys (bs : List (ℕ × List ℕ)) (k i : ℕ) :
    (bucketsInsert bs k i).map Prod.fst =
      if k ∈ bs.map Prod.fst then bs.map Prod.fst else bs.map Prod.fst ++ [k] := by
  induction bs with
  | nil => simp [bucketsInsert]
  | cons hd rest ih =>
    obtain ⟨k0, l0⟩ := hd
    by_cases hk : k0 = k
    · subst hk
      simp [bucketsInsert]
    · simp only [bucketsInsert, if_neg hk, List.map_cons, ih]
      by_cases hmem : k ∈ rest.map Prod.fst
      · rw [if_pos hmem, if_pos (by simp [hmem])]
      · rw [if_neg hmem, if_neg (by simp [hmem, Ne.symm hk]), List.cons_append]

theorem bucketsInsert_keys_nodup (bs : List (ℕ × List ℕ)) (k i : ℕ)
    (h : (bs.map Prod.fst).Nodup) : ((bucketsInsert bs k i).map Prod.fst).Nodup := by
  rw [bucketsInsert_keys]
  split
  · exact h
  · rename_i hnot
    rw [List.nodup_append]
    exact ⟨h, List.nodup_singleton _, fun a ha hb => hnot (List.mem_singleton.mp hb ▸ ha)⟩

theorem insertAABB_keys_nodup (cells : List (ℤ × ℤ)) (bs : List (ℕ × List ℕ)) (i : ℕ)
    (h : (bs.map Prod.fst).Nodup) : ((insertAABB bs cells i).map Prod.fst).Nodup := by
  induction cells generalizing bs with
  | nil => exact h
  | cons c cs ih => exact ih _ (bucketsInsert_keys_nodup bs _ i h)

theorem buildBuckets_keys_nodup (aabbs : List AABB) (cs : ℚ) :
    ((buildBuckets aabbs cs).map Prod.fst).Nodup := by
  unfold buildBuckets
  generalize aabbs.length = n
  induction n with
  | zero => simp
  | succ m ih =>
    rw [List.range_succ, List.foldl_append, List.foldl_cons, List.foldl_nil]
    exact insertAABB_keys_nodup _ _ m ih

theorem bucket_unique (bs : List (ℕ × List ℕ)) (hnd : (bs.map Prod.fst).Nodup)
    (k : ℕ) (l l1 : List ℕ) (h1 : (k, l) ∈ bs) (h2 : (k, l1) ∈ bs) : l = l1 := by
  induction bs with
  | nil => cases h1
  | cons hd rest ih =>
    obtain ⟨k0, l0⟩ := hd
    simp only [List.map_cons, List.nodup_cons] at hnd
    rcases List.mem_cons.mp h1 with e1 | m1
    · rcases List.mem_cons.mp h2 with e2 | m2
      · rw [show l = l0 from congrArg Prod.snd e1, show l1 = l0 from congrArg Prod.snd e2]
      · have hk : k = k0 := congrArg Prod.fst e1
        exact absurd (List.mem_map.mpr ⟨(k, l1), m2, hk⟩) hnd.1
    · rcases List.mem_cons.mp h2 with e2 | m2
      · have hk : k = k0 := congrArg Prod.fst e2
        exact absurd (List.mem_map.mpr ⟨(k, l), m1, hk⟩) hnd.1
      · exact ih hnd.2 m1 m2

theorem bucketFold_out_mono (buckets : List (ℕ × List ℕ)) (seen : List ℕ)
    (out : List (ℕ × ℕ)) :
    ∀ p ∈ out, p ∈ (buckets.foldl
      (fun acc bucket =>
        if bucket.2.length < 2 then acc
        else emitPairs (allPairsOf bucket.2) acc.1 acc.2)
      (seen, out)).2 := by
  induction buckets generalizing seen out with
  | nil => exact fun p hp => hp
  | cons b bs ih =>
    intro p hp
    simp only [List.foldl_cons]
    by_cases hskip : b.2.length < 2
    · rw [if_pos hskip]
      exact ih seen out p hp
    · rw [if_neg hskip]
      have h1 := emitPairs_out_mono (allPairsOf b.2) seen out p hp
      exact ih _ _ p h1

theorem bucketFold_spec (n : ℕ) (buckets : List (ℕ × List ℕ))
    (hwf : ∀ kl ∈ buckets, List.Pairwise (· < ·) kl.2 ∧ ∀ x ∈ kl.2, x < n)
    (seen : List ℕ) (out : List (ℕ × ℕ))
    (hsync : ∀ pk, pk ∈ seen ↔ pk ∈ out.map (fun p => pairKey p.1 p.2))
    (hnd : (out.map (fun p => pairKey p.1 p.2)).Nodup)
    (hsrc : ∀ p ∈ out, p.1 < p.2 ∧ p.2 < n) :
    ((buckets.foldl
        (fun acc bucket =>
          if bucket.2.length < 2 then acc
          else emitPairs (allPairsOf bucket.2) acc.1 acc.2)
        (seen, out)).2.map (fun p => pairKey p.1 p.2)).Nodup ∧
    (∀ p ∈ (buckets.foldl
        (fun acc bucket =>
          if bucket.2.length < 2 then acc
          else emitPairs (allPairsOf bucket.2) acc.1 acc.2)
        (seen, out)).2, p.1 < p.2 ∧ p.2 < n) ∧
    (∀ kl ∈ buckets, ∀ i j : ℕ, i ∈ kl.2 → j ∈ kl.2 → i < j →
      pairKey i j ∈ ((buckets.foldl
        (fun acc bucket =>
          if bucket.2.length < 2 then acc
          else emitPairs (allPairsOf bucket.2) acc.1 acc.2)
        (seen, out)).2.map (fun p => pairKey p.1 p.2))) := by
  induction buckets generalizing seen out with
  | nil =>
    exact ⟨hnd, hsrc, fun kl hkl => absurd hkl (List.not_mem_nil kl)⟩
  | cons b bs ih =>
    have hwfb := hwf b (List.mem_cons_self b bs)
    have hwfbs : ∀ kl ∈ bs, List.Pairwise (· < ·) kl.2 ∧ ∀ x ∈ kl.2, x < n :=
      fun kl hkl => hwf kl (List.mem_cons_of_mem b hkl)
    simp only [List.foldl_cons]
    by_cases hskip : b.2.length < 2
    · rw [if_pos hskip]
      obtain ⟨r1, r2, r3⟩ := ih hwfbs seen out hsync hnd hsrc
      refine ⟨r1, r2, ?_⟩
      intro kl hkl i j hi hj hij
      rcases List.mem_cons.mp hkl with rfl | hmem
      · exact absurd (two_le_length_of_two_mem kl.2 hwfb.1 i j hi hj hij) (by omega)
      · exact r3 kl hmem i j hi hj hij
    · rw [if_neg hskip]
      have hsync1 := emitPairs_sync (allPairsOf b.2) seen out hsync
      have hnd1 := emitPairs_nodup (allPairsOf b.2) seen out hsync hnd
      have hsrc1 : ∀ p ∈ (emitPairs (allPairsOf b.2) seen out).2,
          p.1 < p.2 ∧ p.2 < n := by
        intro p hp
        rcases emitPairs_src _ _ _ p hp with h | h
        · exact hsrc p h
        · obtain ⟨i, j⟩ := p
          obtain ⟨h1, h2, h3⟩ := (mem_allPairsOf b.2 hwfb.1 i j).mp h
          exact ⟨h3, hwfb.2 j h2⟩
      obtain ⟨r1, r2, r3⟩ := ih hwfbs _ _ hsync1 hnd1 hsrc1
      refine ⟨r1, fun p hp => r2 p hp, ?_⟩
      intro kl hkl i j hi hj hij
      rcases List.mem_cons.mp hkl with rfl | hmem
      · have hkey := emitPairs_complete (allPairsOf kl.2) seen out hsync (i, j)
          ((mem_allPairsOf kl.2 hwfb.1 i j).mpr ⟨hi, hj, hij⟩)
        obtain ⟨q, hq, hqk⟩ := List.mem_map.mp hkey
        refine List.mem_map.mpr ⟨q, ?_, hqk⟩
        exact bucketFold_out_mono bs _ _ q hq
      · exact r3 kl hmem i j hi hj hij

theorem prodBeq_decide (x y : ℕ × ℕ) :
    (x == y) = (decide (x = y)) := by
  obtain ⟨x1, x2⟩ := x
  obtain ⟨y1, y2⟩ := y
  show (x1 == y1 && x2 == y2) = decide ((x1, x2) = (y1, y2))
  by_cases h1 : x1 = y1 <;> by_cases h2 : x2 = y2 <;> simp [h1, h2]

theorem cellCoord_mono (x y cs : ℚ) (hcs : 0 < cs) (h : x ≤ y) :
    cellCoord x cs ≤ cellCoord y cs :=
  Int.floor_le_floor (by gcongr)

theorem AABBintersection_bounds (a b : AABB) (h : AABBintersection a b = true) :
    b.min.x ≤ a.max.x ∧ a.min.x ≤ b.max.x ∧ b.min.y ≤ a.max.y ∧ a.min.y ≤ b.max.y := by
  unfold AABBintersection at h
  by_cases h1 : a.max.x < b.min.x ∨ b.max.x < a.min.x
  · rw [if_pos h1] at h; cases h
  · rw [if_neg h1] at h
    by_cases h2 : a.max.y < b.min.y ∨ b.max.y < a.min.y
    · rw [if_pos h2] at h; cases h
    · push_neg at h1 h2
      exact ⟨h1.1, h1.2, h2.1, h2.2⟩

/-- Two overlapping well-formed AABBs cover a common grid cell: the cell
of the floor of the overlap corner. -/
theorem overlap_shared_cell (a b : AABB) (cs : ℚ) (hcs : 0 < cs)
    (hwa : a.min.x ≤ a.max.x ∧ a.min.y ≤ a.max.y)
    (hwb : b.min.x ≤ b.max.x ∧ b.min.y ≤ b.max.y)
    (hov : AABBintersection a b = true) :
    ∃ c : ℤ × ℤ, c ∈ coveredCells a cs ∧ c ∈ coveredCells b cs := by
  obtain ⟨h1, h2, h3, h4⟩ := AABBintersection_bounds a b hov
  refine ⟨(max (cellCoord a.min.x cs) (cellCoord b.min.x cs),
    max (cellCoord a.min.y cs) (cellCoord b.min.y cs)), ?_, ?_⟩
  · rw [mem_coveredCells]
    exact ⟨le_max_left _ _,
      max_le (cellCoord_mono _ _ _ hcs hwa.1) (cellCoord_mono _ _ _ hcs h1),
      le_max_left _ _,
      max_le (cellCoord_mono _ _ _ hcs hwa.2) (cellCoord_mono _ _ _ hcs h3)⟩
  · rw [mem_coveredCells]
    exact ⟨le_max_right _ _,
      max_le (cellCoord_mono _ _ _ hcs h2) (cellCoord_mono _ _ _ hcs hwb.1),
      le_max_right _ _,
      max_le (cellCoord_mono _ _ _ hcs h4) (cellCoord_mono _ _ _ hcs hwb.2)⟩

/-- C3.  For an input list of well-formed AABBs (`min ≤ max`
componentwise, as `getAABB` produces) whose grid-cell coordinates fit a
32-bit `int` and whose length fits the C++ `int` index space, the
candidate list of `buildPairsFromAABBs`: every emitted pair `(i, j)`
satisfies `i < j`; no pair occurs twice; and for any two indices whose
AABBs overlap in the sense of `AABBintersection` (touching included) the
pair `(i, j)` appears exactly once. -/
theorem c3_buildPairs_sound_complete (aabbs : List AABB) (cfg : GridConfig)
    (hcs : 0 < cfg.cellSize) (hlen : aabbs.length ≤ 2 ^ 31)
    (hr : ∀ a ∈ aabbs, cellsInRange a cfg.cellSize)
    (hwf : ∀ a ∈ aabbs, a.min.x ≤ a.max.x ∧ a.min.y ≤ a.max.y) :
    (∀ p ∈ buildPairsFromAABBs aabbs cfg, p.1 < p.2) ∧
    (buildPairsFromAABBs aabbs cfg).Nodup ∧
    (∀ i j : ℕ, i < j → j < aabbs.length →
      AABBintersection (aabbs.getD i ⟨⟨0, 0⟩, ⟨0, 0⟩⟩)
        (aabbs.getD j ⟨⟨0, 0⟩, ⟨0, 0⟩⟩) = true →
      (buildPairsFromAABBs aabbs cfg).count (i, j) = 1) := by
  obtain ⟨hbwf, hbmem⟩ := buildBuckets_spec aabbs cfg.cellSize hr
  have hkeysnd := buildBuckets_keys_nodup aabbs cfg.cellSize
  obtain ⟨r1, r2, r3⟩ := bucketFold_spec aabbs.length (buildBuckets aabbs cfg.cellSize)
    hbwf [] [] (by simp) (by simp) (by simp)
  have hout : buildPairsFromAABBs aabbs cfg =
      ((buildBuckets aabbs cfg.cellSize).foldl
        (fun acc bucket =>
          if bucket.2.length < 2 then acc
          else emitPairs (allPairsOf bucket.2) acc.1 acc.2)
        ([], [])).2 := rfl
  rw [hout]
  refine ⟨fun p hp => (r2 p hp).1, List.Nodup.of_map _ r1, ?_⟩
  intro i j hij hjn hov
  have hin : i < aabbs.length := lt_trans hij hjn
  have hgi : aabbs.getD i ⟨⟨0, 0⟩, ⟨0, 0⟩⟩ ∈ aabbs := by
    rw [List.getD_eq_getElem aabbs _ hin]; exact List.getElem_mem hin
  have hgj : aabbs.getD j ⟨⟨0, 0⟩, ⟨0, 0⟩⟩ ∈ aabbs := by
    rw [List.getD_eq_getElem aabbs _ hjn]; exact List.getElem_mem hjn
  obtain ⟨c, hci, hcj⟩ := overlap_shared_cell _ _ cfg.cellSize hcs
    (hwf _ hgi) (hwf _ hgj) hov
  obtain ⟨li, hli, hmi⟩ := hbmem i hin c hci
  obtain ⟨lj, hlj, hmj⟩ := hbmem j hjn c hcj
  have hll : li = lj := bucket_unique _ hkeysnd _ li lj hli hlj
  subst hll
  have hkeymem := r3 (cellKey c.1 c.2, li) hli i j hmi hmj hij
  obtain ⟨q, hq, hqk⟩ := List.mem_map.mp hkeymem
  have hqb := r2 q hq
  have hinj := pairKey_inj q.1 q.2 i j
    (by omega) (by omega) (by omega) (by omega) hqb.1 hij hqk
  have hq_eq : q = (i, j) := Prod.ext hinj.1 hinj.2
  rw [hq_eq] at hq
  have hcnt := List.count_eq_one_of_mem (List.Nodup.of_map (fun p => pairKey p.1 p.2) r1) hq
  have hinst : ∀ (L : List (ℕ × ℕ)),
      @List.count _ instBEqProd (i, j) L = @List.count _ instBEqOfDecidableEq (i, j) L := by
    intro L
    simp only [List.count]
    refine List.countP_congr ?_
    intro b _
    rw [prodBeq_decide b (i, j)]
    exact Iff.rfl
  rw [hinst]
  exact hcnt

/-- Witness for C3 on three boxes (two overlapping, one far away) with
the default 2-unit grid. -/
theorem c3_buildPairs_sound_complete_witness :
    (∀ p ∈ buildPairsFromAABBs
        [⟨⟨0, 0⟩, ⟨1, 1⟩⟩, ⟨⟨1/2, 1/2⟩, ⟨3/2, 3/2⟩⟩, ⟨⟨10, 10⟩, ⟨11, 11⟩⟩] {}, p.1 < p.2) ∧
    (buildPairsFromAABBs
        [⟨⟨0, 0⟩, ⟨1, 1⟩⟩, ⟨⟨1/2, 1/2⟩, ⟨3/2, 3/2⟩⟩, ⟨⟨10, 10⟩, ⟨11, 11⟩⟩] {}).Nodup ∧
    (∀ i j : ℕ, i < j →
      j < ([⟨⟨0, 0⟩, ⟨1, 1⟩⟩, ⟨⟨1/2, 1/2⟩, ⟨3/2, 3/2⟩⟩,
            ⟨⟨10, 10⟩, ⟨11, 11⟩⟩] : List AABB).length →
      AABBintersection
        (([⟨⟨0, 0⟩, ⟨1, 1⟩⟩, ⟨⟨1/2, 1/2⟩, ⟨3/2, 3/2⟩⟩,
           ⟨⟨10, 10⟩, ⟨11, 11⟩⟩] : List AABB).getD i ⟨⟨0, 0⟩, ⟨0, 0⟩⟩)
        (([⟨⟨0, 0⟩, ⟨1, 1⟩⟩, ⟨⟨1/2, 1/2⟩, ⟨3/2, 3/2⟩⟩,
           ⟨⟨10, 10⟩, ⟨11, 11⟩⟩] : List AABB).getD j ⟨⟨0, 0⟩, ⟨0, 0⟩⟩) = true →
      (buildPairsFromAABBs
        [⟨⟨0, 0⟩, ⟨1, 1⟩⟩, ⟨⟨1/2, 1/2⟩, ⟨3/2, 3/2⟩⟩, ⟨⟨10, 10⟩, ⟨11, 11⟩⟩] {}).count (i, j) = 1) :=
  c3_buildPairs_sound_complete
    [⟨⟨0, 0⟩, ⟨1, 1⟩⟩, ⟨⟨1/2, 1/2⟩, ⟨3/2, 3/2⟩⟩, ⟨⟨10, 10⟩, ⟨11, 11⟩⟩] {}
    (by norm_num [GridConfig.cellSize])
    (by with_unfolding_all decide)
    (by with_unfolding_all decide)
    (by with_unfolding_all decide)

/-! ## World step (`World::step` and `broadPhase`/`narrowPhase` pipeline
from `src/src/main.cpp`, `include/core/World.hpp`,
`include/core/Transform.hpp`) -/

theorem getD_set (l : List RigidBody) (i k : ℕ) (a d : RigidBody) :
    (l.set i a).getD k d = if i = k ∧ k < l.length then a else l.getD k d := by
  simp only [List.getD_eq_getElem?_getD, List.getElem?_set]
  by_cases hik : i = k
  · subst hik
    by_cases hlt : i < l.length
    · simp [hlt]
    · simp only [if_pos rfl, if_neg hlt, if_neg (fun h : i = i ∧ i < l.length => hlt h.2)]
      rw [List.getElem?_eq_none (by omega)]
      simp
      rw [if_neg hlt]
  · rw [if_neg hik, if_neg (fun h : i = k ∧ k < l.length => hik h.1)]

/-- `Transform::applyTransform`: rotate by the body rotation (through the
cosine/sine oracles) and translate. -/
def applyTransform (cosF sinF : ℚ → ℚ) (position : Vec2) (rotation : ℚ)
    (p : Vec2) : Vec2 :=
  let c := cosF rotation
  let s := sinF rotation
  Vec2.mk (p.x * c - p.y * s) (p.x * s + p.y * c) + position

/-- `physEng::worldSpace`: rebuild the world-space vertex cache unless it
is clean and non-empty, then clear the dirty flag. -/
def worldSpace (cosF sinF : ℚ → ℚ) (body : RigidBody) : RigidBody :=
  if body.update = false ∧ body.transformedVertices ≠ [] then body
  else
    { body with
        transformedVertices :=
          body.vertices.map (applyTransform cosF sinF body.position body.rotation),
        update := false }

/-- One candidate pair of the `broadPhase` loop in `src/src/main.cpp`:
skip two statics, recheck the AABBs, otherwise run `narrowPhase` and
write both bodies back. -/
def processPair (sq : ℚ → ℚ) (aabbs : List AABB) (bodies : List RigidBody)
    (p : ℕ × ℕ) : List RigidBody :=
  let A := bodies.getD p.1 {}
  let B := bodies.getD p.2 {}
  if A.isStatic && B.isStatic then bodies
  else if AABBintersection (aabbs.getD p.1 ⟨⟨0, 0⟩, ⟨0, 0⟩⟩)
      (aabbs.getD p.2 ⟨⟨0, 0⟩, ⟨0, 0⟩⟩) = false then bodies
  else
    let r := narrowPhase sq A B
    (bodies.set p.1 r.1).set p.2 r.2

/-- `broadPhase` from `src/src/main.cpp`: rebuild every world-space
cache, compute the AABBs, hash them into candidate pairs, and process
each pair in order. -/
def broadPhase (sq cosF sinF : ℚ → ℚ) (bodies : List RigidBody) : List RigidBody :=
  let bodies1 := bodies.map (worldSpace cosF sinF)
  let aabbs := bodies1.map (fun b => getAABBtotal b.transformedVertices)
  let pairs := buildPairsFromAABBs aabbs {}
  pairs.foldl (fun cur p => processPair sq aabbs cur p) bodies1

/-- The per-body integrator of `World::step` (semi-implicit Euler; the
whole body is skipped when static). -/
def integrateBody (gravity : Vec2) (dt : ℚ) (b : RigidBody) : RigidBody :=
  if b.isStatic then b
  else
    { b with
        linearAcceleration := gravity,
        linearVelocity := b.linearVelocity + Vec2.scale gravity dt,
        position := b.position + Vec2.scale (b.linearVelocity + Vec2.scale gravity dt) dt,
        rotation := b.rotation + b.angularVelocity * dt,
        force := ⟨0, 0⟩,
        update := true }

/-- The `World` fields of `include/core/World.hpp` with their defaults. -/
structure World where
  bodies : List RigidBody := []
  gravity : Vec2 := ⟨0, -981/100⟩
  solverIterations : ℕ := 10
  yBounds : ℚ := 100
deriving Repr

/-- The solver-iteration loop: `broadPhase` run `k` times. -/
def broadPhaseIter (sq cosF sinF : ℚ → ℚ) : ℕ → List RigidBody → List RigidBody
  | 0, bodies => bodies
  | k + 1, bodies => broadPhaseIter sq cosF sinF k (broadPhase sq cosF sinF bodies)

/-- `World::step` from `src/src/main.cpp`: integrate, cull bodies below
`−yBounds`, then run the broad→narrow pipeline `solverIterations`
times.  (`m_stats` is diagnostic only and not modelled.) -/
def World.step (sq cosF sinF : ℚ → ℚ) (dt : ℚ) (w : World) : World :=
  let integrated := w.bodies.map (integrateBody w.gravity dt)
  let culled := integrated.filter (fun b => !decide (b.position.y < -w.yBounds))
  { w with bodies := broadPhaseIter sq cosF sinF w.solverIterations culled }

/-- The pose-and-velocity record of the static bodies of a list, in
order. -/
def staticCore (bodies : List RigidBody) : List (Vec2 × ℚ × Vec2 × ℚ) :=
  (bodies.filter (fun b => b.isStatic)).map
    (fun b => (b.position, b.rotation, b.linearVelocity, b.angularVelocity))

/-- Positional relation: same length, the static flag and the inverse
mass/inertia agree everywhere, and every body that is static in the
original keeps its pose and velocities. -/
def staticsPreserved (orig cur : List RigidBody) : Prop :=
  cur.length = orig.length ∧
  ∀ k, k < orig.length →
    (cur.getD k {}).isStatic = (orig.getD k {}).isStatic ∧
    (cur.getD k {}).inverseMass = (orig.getD k {}).inverseMass ∧
    (cur.getD k {}).inverseInertia = (orig.getD k {}).inverseInertia ∧
    ((orig.getD k {}).isStatic = true →
      (cur.getD k {}).position = (orig.getD k {}).position ∧
      (cur.getD k {}).rotation = (orig.getD k {}).rotation ∧
      (cur.getD k {}).linearVelocity = (orig.getD k {}).linearVelocity ∧
      (cur.getD k {}).angularVelocity = (orig.getD k {}).angularVelocity)

theorem staticsPreserved_refl (l : List RigidBody) : staticsPreserved l l :=
  ⟨rfl, fun _ _ => ⟨rfl, rfl, rfl, fun _ => ⟨rfl, rfl, rfl, rfl⟩⟩⟩

theorem staticsPreserved_trans (a b c : List RigidBody)
    (h1 : staticsPreserved a b) (h2 : staticsPreserved b c) :
    staticsPreserved a c := by
  obtain ⟨hl1, hp1⟩ := h1
  obtain ⟨hl2, hp2⟩ := h2
  refine ⟨hl2.trans hl1, ?_⟩
  intro k hk
  have hkb : k < b.length := hl1 ▸ hk
  obtain ⟨s1, m1, i1, c1⟩ := hp1 k hk
  obtain ⟨s2, m2, i2, c2⟩ := hp2 k hkb
  refine ⟨s2.trans s1, m2.trans m1, i2.trans i1, ?_⟩
  intro hstat
  obtain ⟨p1, r1, v1, w1⟩ := c1 hstat
  obtain ⟨p2, r2, v2, w2⟩ := c2 (s1.trans hstat)
  exact ⟨p2.trans p1, r2.trans r1, v2.trans v1, w2.trans w1⟩

theorem Vec2.scale_zero_right (v : Vec2) : Vec2.scale v 0 = (⟨0, 0⟩ : Vec2) := by
  apply Vec2.ext2 <;> simp [Vec2.scale]

theorem worldSpace_fields (cosF sinF : ℚ → ℚ) (b : RigidBody) :
    (worldSpace cosF sinF b).position = b.position ∧
    (worldSpace cosF sinF b).rotation = b.rotation ∧
    (worldSpace cosF sinF b).linearVelocity = b.linearVelocity ∧
    (worldSpace cosF sinF b).angularVelocity = b.angularVelocity ∧
    (worldSpace cosF sinF b).isStatic = b.isStatic ∧
    (worldSpace cosF sinF b).inverseMass = b.inverseMass ∧
    (worldSpace cosF sinF b).inverseInertia = b.inverseInertia := by
  unfold worldSpace
  split <;> exact ⟨rfl, rfl, rfl, rfl, rfl, rfl, rfl⟩

theorem integrateBody_static (g : Vec2) (dt : ℚ) (b : RigidBody)
    (h : b.isStatic = true) : integrateBody g dt b = b := by
  unfold integrateBody
  rw [if_pos h]

theorem integrateBody_isStatic (g : Vec2) (dt : ℚ) (b : RigidBody) :
    (integrateBody g dt b).isStatic = b.isStatic := by
  unfold integrateBody
  split <;> rfl

theorem integrateBody_inverse (g : Vec2) (dt : ℚ) (b : RigidBody) :
    (integrateBody g dt b).inverseMass = b.inverseMass ∧
    (integrateBody g dt b).inverseInertia = b.inverseInertia := by
  unfold integrateBody
  split <;> exact ⟨rfl, rfl⟩

theorem narrowPhase_preserves (sq : ℚ → ℚ) (A B : RigidBody) :
    ((narrowPhase sq A B).1.isStatic = A.isStatic ∧
     (narrowPhase sq A B).1.inverseMass = A.inverseMass ∧
     (narrowPhase sq A B).1.inverseInertia = A.inverseInertia) ∧
    ((narrowPhase sq A B).2.isStatic = B.isStatic ∧
     (narrowPhase sq A B).2.inverseMass = B.inverseMass ∧
     (narrowPhase sq A B).2.inverseInertia = B.inverseInertia) ∧
    (A.isStatic = true → A.inverseMass = 0 → A.inverseInertia = 0 →
      (narrowPhase sq A B).1.position = A.position ∧
      (narrowPhase sq A B).1.rotation = A.rotation ∧
      (narrowPhase sq A B).1.linearVelocity = A.linearVelocity ∧
      (narrowPhase sq A B).1.angularVelocity = A.angularVelocity) ∧
    (B.isStatic = true → B.inverseMass = 0 → B.inverseInertia = 0 →
      (narrowPhase sq A B).2.position = B.position ∧
      (narrowPhase sq A B).2.rotation = B.rotation ∧
      (narrowPhase sq A B).2.linearVelocity = B.linearVelocity ∧
      (narrowPhase sq A B).2.angularVelocity = B.angularVelocity) := by
  obtain ⟨hpos1, hrot1, hstat1, hinvm1, hinvi1, hupd1, htv1, hv1, hm1,
    hpos2, hrot2, hstat2, hinvm2, hinvi2, hupd2, htv2, hv2, hm2⟩ :=
    applyImpulses_preserved (collectImpulses sq A B (SATCollisionCur sq A B)) A B
  have hlv1 := applyImpulses_fst_linearVelocity
    (collectImpulses sq A B (SATCollisionCur sq A B)) A B
  have hlv2 := applyImpulses_snd_linearVelocity
    (collectImpulses sq A B (SATCollisionCur sq A B)) A B
  have hav1 := applyImpulses_fst_angularVelocity
    (collectImpulses sq A B (SATCollisionCur sq A B)) A B
  have hav2 := applyImpulses_snd_angularVelocity
    (collectImpulses sq A B (SATCollisionCur sq A B)) A B
  by_cases hcol : (SATCollisionCur sq A B).inCollision = true
  case neg =>
    unfold narrowPhase
    rw [if_neg hcol]
    exact ⟨⟨rfl, rfl, rfl⟩, ⟨rfl, rfl, rfl⟩,
      fun _ _ _ => ⟨rfl, rfl, rfl, rfl⟩, fun _ _ _ => ⟨rfl, rfl, rfl, rfl⟩⟩
  case pos =>
    simp only [narrowPhase, hcol, if_true]
    rw [show resolveCollision sq A B (SATCollisionCur sq A B) =
      applyImpulses (collectImpulses sq A B (SATCollisionCur sq A B)) A B from rfl]
    refine ⟨⟨?_, ?_, ?_⟩, ⟨?_, ?_, ?_⟩, ?_, ?_⟩
    · split
      · split <;> exact hstat1
      · exact hstat1
    · split
      · split <;> exact hinvm1
      · exact hinvm1
    · split
      · split <;> exact hinvi1
      · exact hinvi1
    · split
      · split <;> split <;> exact hstat2
      · exact hstat2
    · split
      · split <;> split <;> exact hinvm2
      · exact hinvm2
    · split
      · split <;> split <;> exact hinvi2
      · exact hinvi2
    · intro hA hm hi
      have hlv : (applyImpulses (collectImpulses sq A B (SATCollisionCur sq A B))
          A B).1.linearVelocity = A.linearVelocity := by
        rw [hlv1, hm, Vec2.scale_zero_right, Vec2.sub_zero_vec]
      have hav : (applyImpulses (collectImpulses sq A B (SATCollisionCur sq A B))
          A B).1.angularVelocity = A.angularVelocity := by
        rw [hav1, hi, mul_zero, sub_zero]
      split
      · split
        · next h =>
          rw [hstat1, hA] at h
          exact Bool.noConfusion h
        · exact ⟨hpos1, hrot1, hlv, hav⟩
      · exact ⟨hpos1, hrot1, hlv, hav⟩
    · intro hB hm hi
      have hlv : (applyImpulses (collectImpulses sq A B (SATCollisionCur sq A B))
          A B).2.linearVelocity = B.linearVelocity := by
        rw [hlv2, hm, Vec2.scale_zero_right, Vec2.add_zero_vec]
      have hav : (applyImpulses (collectImpulses sq A B (SATCollisionCur sq A B))
          A B).2.angularVelocity = B.angularVelocity := by
        rw [hav2, hi, mul_zero, add_zero]
      split
      · split
        all_goals
          split
          · next h =>
            rw [hstat2, hB] at h
            exact Bool.noConfusion h
          · exact ⟨hpos2, hrot2, hlv, hav⟩
      · exact ⟨hpos2, hrot2, hlv, hav⟩

theorem getD_map_lt (f : RigidBody → RigidBody) (l : List RigidBody) (k : ℕ)
    (hk : k < l.length) : (l.map f).getD k {} = f (l.getD k {}) := by
  rw [List.getD_eq_getElem?_getD, List.getD_eq_getElem?_getD, List.getElem?_map,
    List.getElem?_eq_getElem hk]
  rfl

theorem mem_iff_getD (l : List RigidBody) (b : RigidBody) :
    b ∈ l ↔ ∃ k, k < l.length ∧ l.getD k {} = b := by
  rw [List.mem_iff_getElem]
  constructor
  · rintro ⟨k, hk, he⟩
    exact ⟨k, hk, by rw [List.getD_eq_getElem?_getD, List.getElem?_eq_getElem hk]; exact he⟩
  · rintro ⟨k, hk, he⟩
    exact ⟨k, hk, by rw [List.getD_eq_getElem?_getD, List.getElem?_eq_getElem hk] at he; exact he⟩

/-- Every static body of the list has zero inverse mass and zero inverse
inertia (what `computeInverseMass` guarantees when the flag is set at
construction). -/
def staticZeroInv (l : List RigidBody) : Prop :=
  ∀ k, k < l.length → (l.getD k {}).isStatic = true →
    (l.getD k {}).inverseMass = 0 ∧ (l.getD k {}).inverseInertia = 0

theorem staticZeroInv_of_mem (l : List RigidBody)
    (h : ∀ b ∈ l, b.isStatic = true → b.inverseMass = 0 ∧ b.inverseInertia = 0) :
    staticZeroInv l := by
  intro k hk hs
  exact h _ ((mem_iff_getD l _).mpr ⟨k, hk, rfl⟩) hs

theorem staticZeroInv_of_preserved (a b : List RigidBody)
    (hz : staticZeroInv a) (hp : staticsPreserved a b) : staticZeroInv b := by
  intro k hk hb
  have hka : k < a.length := hp.1 ▸ hk
  obtain ⟨s, m, i, -⟩ := hp.2 k hka
  rw [m, i]
  exact hz k hka (s ▸ hb)

theorem processPair_preserves (sq : ℚ → ℚ) (aabbs : List AABB)
    (bodies : List RigidBody) (p : ℕ × ℕ) (hz : staticZeroInv bodies) :
    staticsPreserved bodies (processPair sq aabbs bodies p) := by
  simp only [processPair]
  split
  · exact staticsPreserved_refl _
  · split
    · exact staticsPreserved_refl _
    · obtain ⟨⟨hs1, hm1, hi1⟩, ⟨hs2, hm2, hi2⟩, hc1, hc2⟩ :=
        narrowPhase_preserves sq (bodies.getD p.1 {}) (bodies.getD p.2 {})
      refine ⟨by simp [List.length_set], ?_⟩
      intro k hk
      rw [getD_set, getD_set]
      by_cases h2 : p.2 = k ∧ k <
          (bodies.set p.1 (narrowPhase sq (bodies.getD p.1 {}) (bodies.getD p.2 {})).1).length
      · rw [if_pos h2]
        obtain ⟨hpk, -⟩ := h2
        subst hpk
        refine ⟨hs2, hm2, hi2, ?_⟩
        intro hstat
        obtain ⟨hzm, hzi⟩ := hz p.2 hk hstat
        exact hc2 hstat hzm hzi
      · rw [if_neg h2]
        by_cases h1 : p.1 = k ∧ k < bodies.length
        · rw [if_pos h1]
          obtain ⟨hpk, -⟩ := h1
          subst hpk
          refine ⟨hs1, hm1, hi1, ?_⟩
          intro hstat
          obtain ⟨hzm, hzi⟩ := hz p.1 hk hstat
          exact hc1 hstat hzm hzi
        · rw [if_neg h1]
          exact ⟨rfl, rfl, rfl, fun _ => ⟨rfl, rfl, rfl, rfl⟩⟩

theorem foldl_processPair_preserves (sq : ℚ → ℚ) (aabbs : List AABB)
    (pairs : List (ℕ × ℕ)) (bodies : List RigidBody) (hz : staticZeroInv bodies) :
    staticsPreserved bodies
      (pairs.foldl (fun cur p => processPair sq aabbs cur p) bodies) := by
  induction pairs generalizing bodies with
  | nil => exact staticsPreserved_refl _
  | cons p rest ih =>
    rw [List.foldl_cons]
    have h1 := processPair_preserves sq aabbs bodies p hz
    exact staticsPreserved_trans _ _ _ h1
      (ih _ (staticZeroInv_of_preserved _ _ hz h1))

theorem map_worldSpace_preserves (cosF sinF : ℚ → ℚ) (bodies : List RigidBody) :
    staticsPreserved bodies (bodies.map (worldSpace cosF sinF)) := by
  refine ⟨by simp, ?_⟩
  intro k hk
  rw [getD_map_lt _ _ _ hk]
  obtain ⟨hp, hr, hl, ha, hs, hm, hi⟩ := worldSpace_fields cosF sinF (bodies.getD k {})
  exact ⟨hs, hm, hi, fun _ => ⟨hp, hr, hl, ha⟩⟩

theorem broadPhase_preserves (sq cosF sinF : ℚ → ℚ) (bodies : List RigidBody)
    (hz : staticZeroInv bodies) :
    staticsPreserved bodies (broadPhase sq cosF sinF bodies) := by
  have h1 := map_worldSpace_preserves cosF sinF bodies
  have hz1 := staticZeroInv_of_preserved _ _ hz h1
  simp only [broadPhase]
  exact staticsPreserved_trans _ _ _ h1
    (foldl_processPair_preserves _ _ _ _ hz1)

theorem broadPhaseIter_preserves (sq cosF sinF : ℚ → ℚ) (n : ℕ)
    (bodies : List RigidBody) (hz : staticZeroInv bodies) :
    staticsPreserved bodies (broadPhaseIter sq cosF sinF n bodies) := by
  induction n generalizing bodies with
  | zero => exact staticsPreserved_refl _
  | succ k ih =>
    have h1 := broadPhase_preserves sq cosF sinF bodies hz
    exact staticsPreserved_trans _ _ _ h1
      (ih _ (staticZeroInv_of_preserved _ _ hz h1))

theorem staticCore_cons (x : RigidBody) (xs : List RigidBody) :
    staticCore (x :: xs) = if x.isStatic = true
      then (x.position, x.rotation, x.linearVelocity, x.angularVelocity) :: staticCore xs
      else staticCore xs := by
  simp only [staticCore, List.filter_cons]
  by_cases hx : x.isStatic = true
  · simp [hx]
  · simp [hx]

theorem staticCore_map (f : RigidBody → RigidBody) (l : List RigidBody)
    (hflag : ∀ b, (f b).isStatic = b.isStatic)
    (hid : ∀ b, b.isStatic = true → f b = b) :
    staticCore (l.map f) = staticCore l := by
  induction l with
  | nil => rfl
  | cons x xs ih =>
    rw [List.map_cons, staticCore_cons, staticCore_cons]
    by_cases hx : x.isStatic = true
    · rw [if_pos (by rw [hflag]; exact hx), if_pos hx, hid x hx, ih]
    · rw [if_neg (fun h => hx (by rw [hflag] at h; exact h)), if_neg hx, ih]

theorem staticCore_filter (p : RigidBody → Bool) (l : List RigidBody)
    (hstat : ∀ b ∈ l, b.isStatic = true → p b = true) :
    staticCore (l.filter p) = staticCore l := by
  induction l with
  | nil => rfl
  | cons x xs ih =>
    have ihx := ih (fun b hb hs => hstat b (List.mem_cons_of_mem x hb) hs)
    rw [List.filter_cons]
    by_cases hpx : p x = true
    · rw [if_pos hpx, staticCore_cons, staticCore_cons]
      by_cases hx : x.isStatic = true
      · rw [if_pos hx, if_pos hx, ihx]
      · rw [if_neg hx, if_neg hx, ihx]
    · have hx : x.isStatic = false := by
        cases hxs : x.isStatic
        · rfl
        · exact absurd (hstat x (List.mem_cons_self x xs) hxs) hpx
      rw [if_neg hpx, staticCore_cons, if_neg (by simp [hx]), ihx]

theorem staticCore_eq_of_preserved (a b : List RigidBody)
    (h : staticsPreserved a b) : staticCore b = staticCore a := by
  induction a generalizing b with
  | nil =>
    have hb : b = [] := List.length_eq_zero.mp h.1
    rw [hb]
  | cons x xs ih =>
    obtain ⟨hl, hp⟩ := h
    cases b with
    | nil => exact absurd hl (by simp)
    | cons y ys =>
      have h0 := hp 0 (by simp)
      simp only [List.getD_cons_zero] at h0
      obtain ⟨hs, hm, hi, hc⟩ := h0
      have hrest : staticsPreserved xs ys := by
        refine ⟨by simpa using hl, ?_⟩
        intro k hk
        have hstep := hp (k + 1) (by simpa using Nat.succ_lt_succ hk)
        simpa only [List.getD_cons_succ] using hstep
      have ihr := ih ys hrest
      rw [staticCore_cons, staticCore_cons]
      by_cases hx : x.isStatic = true
      · have hy : y.isStatic = true := hs.trans hx
        rw [if_pos hx, if_pos hy]
        obtain ⟨hpp, hrr, hvv, hww⟩ := hc hx
        rw [hpp, hrr, hvv, hww, ihr]
      · rw [if_neg hx, if_neg (fun h2 => hx (hs ▸ h2))]
        exact ihr

/-- The well-formedness the scene construction of `main.cpp` establishes
for static bodies: default-constructed, so zero inverse mass and zero
inverse inertia, and placed above the cull line `y = -yBounds`. -/
def staticsOk (w : World) : Prop :=
  ∀ b ∈ w.bodies, b.isStatic = true →
    b.inverseMass = 0 ∧ b.inverseInertia = 0 ∧ ¬(b.position.y < -w.yBounds)

theorem staticsOk_transfer (Y : ℚ) (a b : List RigidBody)
    (hp : staticsPreserved a b)
    (ha : ∀ x ∈ a, x.isStatic = true →
      x.inverseMass = 0 ∧ x.inverseInertia = 0 ∧ ¬(x.position.y < -Y)) :
    ∀ x ∈ b, x.isStatic = true →
      x.inverseMass = 0 ∧ x.inverseInertia = 0 ∧ ¬(x.position.y < -Y) := by
  intro x hx hs
  obtain ⟨k, hk, he⟩ := (mem_iff_getD b x).mp hx
  have hka : k < a.length := hp.1 ▸ hk
  obtain ⟨s, m, i, c⟩ := hp.2 k hka
  subst he
  have hsa : (a.getD k {}).isStatic = true := s ▸ hs
  have haK := ha _ ((mem_iff_getD a _).mpr ⟨k, hka, rfl⟩) hsa
  obtain ⟨hpp, -, -, -⟩ := c hsa
  exact ⟨m.trans haK.1, i.trans haK.2.1, by rw [hpp]; exact haK.2.2⟩

theorem step_staticCore (sq cosF sinF : ℚ → ℚ) (dt : ℚ) (w : World)
    (h : staticsOk w) :
    staticCore (World.step sq cosF sinF dt w).bodies = staticCore w.bodies ∧
    staticsOk (World.step sq cosF sinF dt w) := by
  have hA : staticCore (w.bodies.map (integrateBody w.gravity dt)) = staticCore w.bodies :=
    staticCore_map _ _ (fun b => integrateBody_isStatic w.gravity dt b)
      (fun b hb => integrateBody_static w.gravity dt b hb)
  have h1mem : ∀ b ∈ w.bodies.map (integrateBody w.gravity dt), b.isStatic = true →
      b.inverseMass = 0 ∧ b.inverseInertia = 0 ∧ ¬(b.position.y < -w.yBounds) := by
    intro b hb hs
    obtain ⟨a, ha, rfl⟩ := List.mem_map.mp hb
    have has : a.isStatic = true := by
      rw [← integrateBody_isStatic w.gravity dt a]; exact hs
    rw [integrateBody_static w.gravity dt a has]
    exact h a ha has
  have hB : staticCore ((w.bodies.map (integrateBody w.gravity dt)).filter
      (fun b => !decide (b.position.y < -w.yBounds))) =
      staticCore (w.bodies.map (integrateBody w.gravity dt)) := by
    refine staticCore_filter _ _ ?_
    intro b hb hs
    have hy := (h1mem b hb hs).2.2
    simp [hy]
  have h2mem : ∀ b ∈ (w.bodies.map (integrateBody w.gravity dt)).filter
      (fun b => !decide (b.position.y < -w.yBounds)), b.isStatic = true →
      b.inverseMass = 0 ∧ b.inverseInertia = 0 ∧ ¬(b.position.y < -w.yBounds) :=
    fun b hb hs => h1mem b (List.mem_of_mem_filter hb) hs
  have hz2 : staticZeroInv ((w.bodies.map (integrateBody w.gravity dt)).filter
      (fun b => !decide (b.position.y < -w.yBounds))) :=
    staticZeroInv_of_mem _ (fun b hb hs => ⟨(h2mem b hb hs).1, (h2mem b hb hs).2.1⟩)
  have hp3 := broadPhaseIter_preserves sq cosF sinF w.solverIterations _ hz2
  have hC := staticCore_eq_of_preserved _ _ hp3
  constructor
  · exact hC.trans (hB.trans hA)
  · intro b hb hs
    exact staticsOk_transfer w.yBounds _ _ hp3 h2mem b hb hs

/-- `World::step` applied `n` times. -/
def stepIter (sq cosF sinF : ℚ → ℚ) (dt : ℚ) : ℕ → World → World
  | 0, w => w
  | n + 1, w => stepIter sq cosF sinF dt n (World.step sq cosF sinF dt w)

/-- C8: for every world whose static bodies carry the inverse mass and
inverse inertia of zero that `computeInverseMass` gives them and sit above
the cull line (as every static body built by `main.cpp` does), the
position, rotation, linear velocity and angular velocity of the static
bodies — recorded in order by `staticCore` — are unchanged across any
number of calls to `World::step`: the integrator skips static bodies, the
cull keeps them, two statics are never paired, the impulses scale by the
zero inverse mass and inertia, and the positional correction is guarded
by the static flag. -/
theorem c8_static_bodies_pose_fixed (sq cosF sinF : ℚ → ℚ) (dt : ℚ) (n : ℕ)
    (w : World) (h : staticsOk w) :
    staticCore (stepIter sq cosF sinF dt n w).bodies = staticCore w.bodies := by
  induction n generalizing w with
  | zero => rfl
  | succ k ih =>
    obtain ⟨hc, hok⟩ := step_staticCore sq cosF sinF dt w h
    exact (ih _ hok).trans hc

theorem c8_static_bodies_pose_fixed_witness :
    staticsOk { bodies := [{ isStatic := true, position := ⟨0, -27⟩ }, {}] } ∧
    staticCore (stepIter (fun q => q) (fun _ => 1) (fun _ => 0) (1/60) 3
        { bodies := [{ isStatic := true, position := ⟨0, -27⟩ }, {}] }).bodies =
      staticCore ({ bodies := [{ isStatic := true, position := ⟨0, -27⟩ }, {}] } : World).bodies :=
  ⟨by unfold staticsOk; with_unfolding_all decide,
   c8_static_bodies_pose_fixed (fun q => q) (fun _ => 1) (fun _ => 0) (1/60) 3
     { bodies := [{ isStatic := true, position := ⟨0, -27⟩ }, {}] }
     (by unfold staticsOk; with_unfolding_all decide)⟩

end PhysEng
